import Mathlib

/-!
Shallow embedding of the or3-provider-sqlite sync gateway and workspace store.

Source files embedded:
- src/runtime/server/sync/sqlite-sync-gateway-adapter.ts
  (SqliteSyncGatewayAdapter: push / pull / gcChangeLog, incomingWinsLww)
- src/runtime/server/db/schema.ts (SYNCED_TABLE_MAP, ALLOWED_SYNC_TABLES)
- src/runtime/server/auth/sqlite-auth-workspace-store.ts
  (SqliteAuthWorkspaceStore.getOrCreateDefaultWorkspace)

Modelling conventions:
- SQL tables are lists of row structures, scanned in table order
  (SELECT ... get() takes the first matching row; UPDATE rewrites every
  matching row; INSERT appends).
- Random UUID primary keys (the uid() column of change_log, tombstones, etc.)
  are irrelevant to every claim and are omitted from the row structures;
  fresh ids needed by workspace creation are passed in as parameters.
- JS numbers used as epoch seconds / clocks / versions are modelled as Nat;
  the GC cutoff now - retention is modelled in Int since it may go negative.
- HLC strings are compared with JS `>` (UTF-16 code-unit lexicographic);
  Lean's String < is lexicographic on code points, which agrees on the
  ASCII HLCs the system produces.
- The op payload is carried in already-serialized form (Option String),
  matching payload_json = payload != null ? JSON.stringify(payload) : null.
-/

namespace Or3Sqlite

/-- Sync operation kind, `op.operation ∈ {put, delete}`. -/
inductive OpKind where
  | put : OpKind
  | del : OpKind
deriving DecidableEq, Repr

/-- `PendingOp.stamp`: `{device_id, op_id, hlc, clock}`. -/
structure Stamp where
  deviceId : String
  opId : String
  hlc : String
  clock : Nat
deriving DecidableEq, Repr

/-- A `PendingOp` of a `PushBatch`. `payload` is the serialized JSON payload. -/
structure PendingOp where
  tableName : String
  operation : OpKind
  pk : String
  payload : Option String
  stamp : Stamp
deriving DecidableEq, Repr

/-- A `change_log` row (random uuid `id` column omitted). -/
structure ChangeLogRow where
  workspaceId : String
  serverVersion : Nat
  tableName : String
  pk : String
  op : OpKind
  payloadJson : Option String
  clock : Nat
  hlc : String
  deviceId : String
  opId : String
  createdAt : Nat
deriving DecidableEq, Repr

/-- A row of a materialized sync table (`s_threads`, ...); `table` names which
materialized table the row belongs to. -/
structure MatRow where
  table : String
  id : String
  workspaceId : String
  dataJson : String
  clock : Nat
  hlc : String
  deviceId : String
  deleted : Bool
  createdAt : Nat
  updatedAt : Nat
deriving DecidableEq, Repr

/-- A `tombstones` row (random uuid `id` column omitted). -/
structure TombstoneRow where
  workspaceId : String
  tableName : String
  pk : String
  deletedAt : Nat
  clock : Nat
  serverVersion : Nat
  createdAt : Nat
deriving DecidableEq, Repr

/-- A `device_cursors` row (random uuid `id` column omitted). -/
structure CursorRow where
  workspaceId : String
  deviceId : String
  lastSeenVersion : Nat
  updatedAt : Nat
deriving DecidableEq, Repr

/-- The sync-side database state: change log, per-workspace counters
(`server_version_counter`), materialized tables, tombstones, device cursors. -/
structure Db where
  changeLog : List ChangeLogRow
  counters : List (String × Nat)
  mat : List MatRow
  tombstones : List TombstoneRow
  cursors : List CursorRow
deriving DecidableEq, Repr

/-- schema.ts: `SYNCED_TABLE_MAP` (sync table name -> materialized table name). -/
def SYNCED_TABLE_MAP : List (String × String) :=
  [("threads", "s_threads"), ("messages", "s_messages"),
   ("projects", "s_projects"), ("posts", "s_posts"), ("kv", "s_kv"),
   ("file_meta", "s_file_meta"), ("notifications", "s_notifications")]

/-- schema.ts: `ALLOWED_SYNC_TABLES = Object.keys(SYNCED_TABLE_MAP)`. -/
def ALLOWED_SYNC_TABLES : List String := SYNCED_TABLE_MAP.map Prod.fst

/-- `SYNCED_TABLE_MAP[tableName]` lookup. -/
def matTableFor (t : String) : Option String := SYNCED_TABLE_MAP.lookup t

/-- `incomingWinsLww`: incoming wins if clock is higher, or clock is equal and
hlc is lexicographically greater. -/
def incomingWinsLww (inClock : Nat) (inHlc : String) (existingClock : Nat)
    (existingHlc : String) : Bool :=
  if inClock > existingClock then true
  else if inClock == existingClock && inHlc > existingHlc then true
  else false

/-- The idempotency probe for one op_id:
`SELECT op_id, server_version FROM change_log WHERE op_id IN (...)`.
The SQL is chunked only to respect parameter limits; per op_id it is a plain
whole-table lookup (no workspace filter). -/
def findOp? (log : List ChangeLogRow) (opId : String) : Option Nat :=
  (log.find? (fun r => r.opId == opId)).map (·.serverVersion)

/-- The `uniqueNewOpIds` set of push, in JS `Set` insertion order: op_ids of
the batch that are not in the change log, first occurrence first, deduplicated
(`seen` is the set built so far). -/
def uniqueNewOpIds (log : List ChangeLogRow) :
    List PendingOp → List String → List String
  | [], _ => []
  | op :: rest, seen =>
    if (findOp? log op.stamp.opId).isSome then uniqueNewOpIds log rest seen
    else if seen.contains op.stamp.opId then uniqueNewOpIds log rest seen
    else op.stamp.opId :: uniqueNewOpIds log rest (seen ++ [op.stamp.opId])

/-- The `assignedVersions` map of push: iterate ops, skip existing op_ids and
op_ids already assigned, and give the next one `baseVersion + versionOffset`
after incrementing `versionOffset` (`off`). -/
def buildAssigned (log : List ChangeLogRow) (base : Nat) :
    List PendingOp → List (String × Nat) → Nat → List (String × Nat)
  | [], acc, _ => acc
  | op :: rest, acc, off =>
    if (findOp? log op.stamp.opId).isSome then buildAssigned log base rest acc off
    else if (acc.lookup op.stamp.opId).isSome then
      buildAssigned log base rest acc off
    else buildAssigned log base rest (acc ++ [(op.stamp.opId, base + off + 1)]) (off + 1)

/-- One entry of `PushResult.results`. -/
structure OpResult where
  opId : String
  success : Bool
  serverVersion : Option Nat
  error : Option String
  errorCode : Option String
deriving DecidableEq, Repr

/-- `PushResult`: per-op results plus the final counter value. -/
structure PushResult where
  results : List OpResult
  serverVersion : Nat
deriving DecidableEq, Repr

/-- A successful per-op result `{opId, success: true, serverVersion}`. -/
def okResult (opId : String) (sv : Nat) : OpResult :=
  ⟨opId, true, some sv, none, none⟩

/-- The batch-rejection result for one op:
`{opId, success: false, error: Invalid table ..., errorCode: VALIDATION_ERROR}`. -/
def invalidTableResult (o : PendingOp) : OpResult :=
  ⟨o.stamp.opId, false, none, some ("Invalid table: " ++ o.tableName),
   some "VALIDATION_ERROR"⟩

/-- `SELECT clock, hlc FROM tbl WHERE id = ? AND workspace_id = ?` (get). -/
def findMat (mat : List MatRow) (tbl pk ws : String) : Option MatRow :=
  mat.find? (fun r => r.table == tbl && r.id == pk && r.workspaceId == ws)

/-- Row key predicate for the materialized UPDATE's WHERE clause. -/
def matKey (tbl pk ws : String) (r : MatRow) : Bool :=
  r.table == tbl && r.id == pk && r.workspaceId == ws

/-- Materialized-table effect of a `put` op: insert a fresh row when none
exists, overwrite on LWW win, leave the table untouched otherwise. -/
def applyPutMat (mat : List MatRow) (tbl ws pk : String)
    (payloadJson : Option String) (st : Stamp) (now : Nat) : List MatRow :=
  match findMat mat tbl pk ws with
  | none =>
    mat ++ [⟨tbl, pk, ws, payloadJson.getD "\x7b\x7d", st.clock, st.hlc,
             st.deviceId, false, now, now⟩]
  | some ex =>
    if incomingWinsLww st.clock st.hlc ex.clock ex.hlc then
      mat.map (fun r =>
        if matKey tbl pk ws r then
          { r with dataJson := payloadJson.getD "\x7b\x7d", clock := st.clock,
                   hlc := st.hlc, deviceId := st.deviceId, deleted := false,
                   updatedAt := now }
        else r)
    else mat

/-- Materialized-table effect of a `delete` op: insert a deleted stub when no
row exists, mark deleted on LWW win, leave the table untouched otherwise. -/
def applyDeleteMat (mat : List MatRow) (tbl ws pk : String) (st : Stamp)
    (now : Nat) : List MatRow :=
  match findMat mat tbl pk ws with
  | none =>
    mat ++ [⟨tbl, pk, ws, "\x7b\x7d", st.clock, st.hlc, st.deviceId, true,
             now, now⟩]
  | some ex =>
    if incomingWinsLww st.clock st.hlc ex.clock ex.hlc then
      mat.map (fun r =>
        if matKey tbl pk ws r then
          { r with deleted := true, clock := st.clock, hlc := st.hlc,
                   deviceId := st.deviceId, updatedAt := now }
        else r)
    else mat

/-- Tombstone key predicate `(workspace_id, table_name, pk)`. -/
def tombKey (ws tbl pk : String) (t : TombstoneRow) : Bool :=
  t.workspaceId == ws && t.tableName == tbl && t.pk == pk

/-- The tombstone upsert `ON CONFLICT(workspace_id, table_name, pk) DO UPDATE
... WHERE excluded.clock > tombstones.clock OR (equal clock AND
excluded.server_version > tombstones.server_version)`. -/
def upsertTombstone (ts : List TombstoneRow) (ws tbl pk : String) (now clock sv : Nat) :
    List TombstoneRow :=
  match ts.find? (tombKey ws tbl pk) with
  | none => ts ++ [⟨ws, tbl, pk, now, clock, sv, now⟩]
  | some _ =>
    ts.map (fun t =>
      if tombKey ws tbl pk t &&
          (clock > t.clock || (clock == t.clock && sv > t.serverVersion)) then
        { t with deletedAt := now, clock := clock, serverVersion := sv }
      else t)

/-- The `insertChangeLog.run(...)` row: the op's fields plus the allocated
server_version, `workspace_id` and `created_at = now` (uuid omitted). -/
def logRowOf (ws : String) (now sv : Nat) (op : PendingOp) : ChangeLogRow :=
  ⟨ws, sv, op.tableName, op.pk, op.operation, op.payload, op.stamp.clock,
   op.stamp.hlc, op.stamp.deviceId, op.stamp.opId, now⟩

/-- The state change of processing one fresh op: insert its change-log row
(the insert precedes the materialized apply, which reads tables the insert
does not touch), apply LWW to the materialized table, and for a delete also
upsert the tombstone. -/
def applyOpState (ws : String) (now sv : Nat) (mt : String) (op : PendingOp)
    (db : Db) : Db :=
  match op.operation with
  | .put =>
    { db with
        changeLog := db.changeLog ++ [logRowOf ws now sv op],
        mat := applyPutMat db.mat mt ws op.pk op.payload op.stamp now }
  | .del =>
    { db with
        changeLog := db.changeLog ++ [logRowOf ws now sv op],
        mat := applyDeleteMat db.mat mt ws op.pk op.stamp now,
        tombstones := upsertTombstone db.tombstones ws op.tableName op.pk
          now op.stamp.clock sv }

/-- The per-op processing loop of push, over the remaining ops.
`existing` is the idempotency map, `assigned` the allocated versions,
`processed` the `processedNew` set, `acc` the results array so far.
`none` models the `throw new Error(Missing server version allocation ...)`
branch aborting the transaction (proved unreachable below). -/
def processOps (ws : String) (now : Nat) (existing : String → Option Nat)
    (assigned : List (String × Nat)) :
    List PendingOp → List String → List OpResult → Db →
      Option (List OpResult × Db)
  | [], _, acc, db => some (acc, db)
  | op :: rest, processed, acc, db =>
    match existing op.stamp.opId with
    | some sv =>
      processOps ws now existing assigned rest processed
        (acc ++ [okResult op.stamp.opId sv]) db
    | none =>
      match assigned.lookup op.stamp.opId with
      | none => none
      | some sv =>
        if processed.contains op.stamp.opId then
          processOps ws now existing assigned rest processed
            (acc ++ [okResult op.stamp.opId sv]) db
        else
          match matTableFor op.tableName with
          | none =>
            processOps ws now existing assigned rest
              (processed ++ [op.stamp.opId])
              (acc ++ [⟨op.stamp.opId, false, none,
                        some ("Unknown table: " ++ op.tableName),
                        some "VALIDATION_ERROR"⟩]) db
          | some mt =>
            processOps ws now existing assigned rest
              (processed ++ [op.stamp.opId])
              (acc ++ [okResult op.stamp.opId sv])
              (applyOpState ws now sv mt op db)

/-- The counter write of push: UPDATE the existing row to `base + n`, else
INSERT `(workspaceId, n)` (with `base = 0`). -/
def writeCounter (counters : List (String × Nat)) (ws : String) (n : Nat) :
    List (String × Nat) :=
  match counters.lookup ws with
  | some base => counters.map (fun p => if p.1 == ws then (p.1, base + n) else p)
  | none => counters ++ [(ws, n)]

/-- `SqliteSyncGatewayAdapter.push`, as a transaction on the database state.
`none` models the transaction aborting on the unreachable missing-allocation
throw. -/
def pushAux (ws : String) (ops : List PendingOp) (now : Nat) (db : Db) :
    Option (PushResult × Db) :=
  if ops.isEmpty then some (⟨[], 0⟩, db)
  else if ops.any (fun op => !(ALLOWED_SYNC_TABLES.contains op.tableName)) then
    some (⟨ops.map invalidTableResult, 0⟩, db)
  else
    let base := (db.counters.lookup ws).getD 0
    let newIds := uniqueNewOpIds db.changeLog ops []
    let assigned := buildAssigned db.changeLog base ops [] 0
    let db0 := { db with counters := writeCounter db.counters ws newIds.length }
    match processOps ws now (findOp? db.changeLog) assigned ops [] [] db0 with
    | some (results, db1) => some (⟨results, base + newIds.length⟩, db1)
    | none => none

/-- `push` with the unreachable abort branch mapped to the unchanged state;
`pushAux_isSome` below proves the branch never fires. -/
def push (ws : String) (ops : List PendingOp) (now : Nat) (db : Db) :
    PushResult × Db :=
  (pushAux ws ops now db).getD (⟨[], 0⟩, db)

/-- A `SyncChange` of a `PullResponse`. -/
structure SyncChange where
  serverVersion : Nat
  tableName : String
  pk : String
  op : OpKind
  payload : Option String
  stamp : Stamp
deriving DecidableEq, Repr

/-- A `PullResponse`. -/
structure PullResponse where
  changes : List SyncChange
  nextCursor : Nat
  hasMore : Bool
deriving DecidableEq, Repr

/-- The pull query's WHERE clauses: workspace scope, `server_version > cursor`,
and the table filter when `tables?.length` is truthy (a present empty list is
falsy in JS and applies no filter). -/
def pullKeeps (ws : String) (cursor : Nat) (tables : Option (List String))
    (r : ChangeLogRow) : Bool :=
  r.workspaceId == ws && cursor < r.serverVersion &&
    (match tables with
     | some ts => if ts.isEmpty then true else ts.contains r.tableName
     | none => true)

/-- The change-log rows the pull query ranges over, before ORDER BY / LIMIT. -/
def pullCandidates (db : Db) (ws : String) (cursor : Nat)
    (tables : Option (List String)) : List ChangeLogRow :=
  db.changeLog.filter (pullKeeps ws cursor tables)

/-- Insertion into a list sorted by ascending server_version. -/
def insertByVersion (r : ChangeLogRow) : List ChangeLogRow → List ChangeLogRow
  | [] => [r]
  | x :: xs =>
    if r.serverVersion ≤ x.serverVersion then r :: x :: xs
    else x :: insertByVersion r xs

/-- `ORDER BY server_version asc`, as insertion sort. -/
def sortByVersion : List ChangeLogRow → List ChangeLogRow
  | [] => []
  | x :: xs => insertByVersion x (sortByVersion xs)

/-- Mapping a change-log row to a wire `SyncChange` (payload_json parse/serialize
round-trips, so the payload is carried through as the serialized form;
JSON.stringify never yields the empty string, so the JS truthiness test on
payload_json is a null test). -/
def toSyncChange (r : ChangeLogRow) : SyncChange :=
  ⟨r.serverVersion, r.tableName, r.pk, r.op, r.payloadJson,
   ⟨r.deviceId, r.opId, r.hlc, r.clock⟩⟩

/-- `SqliteSyncGatewayAdapter.pull`. Reads only; returns the response. -/
def pull (db : Db) (ws : String) (cursor limit : Nat)
    (tables : Option (List String)) : PullResponse :=
  let fetchLimit := min limit 1000
  let rows := (sortByVersion (pullCandidates db ws cursor tables)).take (fetchLimit + 1)
  let hasMore := decide (fetchLimit < rows.length)
  let resultRows := if hasMore then rows.take fetchLimit else rows
  let nextCursor :=
    match resultRows.getLast? with
    | some r => r.serverVersion
    | none => cursor
  ⟨resultRows.map toSyncChange, nextCursor, hasMore⟩

/-- `DELETE ... WHERE rowid IN (SELECT rowid ... WHERE p LIMIT n)`: remove up
to `n` rows satisfying `p`, returning the remaining rows and the count of
deleted rows (`result.changes`). -/
def deleteUpTo {α : Type} (p : α → Bool) : Nat → List α → List α × Nat
  | _, [] => ([], 0)
  | 0, l => (l, 0)
  | n + 1, r :: rest =>
    if p r then
      let res := deleteUpTo p n rest
      (res.1, res.2 + 1)
    else
      let res := deleteUpTo p (n + 1) rest
      (r :: res.1, res.2)

/-- The `do ... while (deleted >= BATCH_SIZE)` loop of gcChangeLog, with
explicit fuel (the loop terminates because each full batch removes
`batchSize > 0` rows; adequate fuel is supplied at the call site). -/
def gcLoop {α : Type} (p : α → Bool) (batchSize : Nat) :
    Nat → List α → List α
  | 0, log => log
  | fuel + 1, log =>
    let res := deleteUpTo p batchSize log
    if batchSize ≤ res.2 then gcLoop p batchSize fuel res.1 else res.1

/-- `SELECT MIN(last_seen_version) ... WHERE workspace_id = ?`, with the
NULL-on-empty result coalesced to 0 (`?? 0`). -/
def minCursorVersion (cursors : List CursorRow) (ws : String) : Nat :=
  match (cursors.filter (fun c => c.workspaceId == ws)).map (·.lastSeenVersion) with
  | [] => 0
  | v :: vs => vs.foldl min v

/-- The gcChangeLog delete predicate:
`workspace_id = w AND server_version < minCursor AND created_at < cutoff`. -/
def gcQualifies (ws : String) (minC : Nat) (cutoff : Int) (r : ChangeLogRow) : Bool :=
  r.workspaceId == ws && r.serverVersion < minC && (r.createdAt : Int) < cutoff

/-- `SqliteSyncGatewayAdapter.gcChangeLog` with BATCH_SIZE = 1000. -/
def gcChangeLog (db : Db) (ws : String) (retentionSeconds now : Nat) : Db :=
  let minC := minCursorVersion db.cursors ws
  let cutoff : Int := (now : Int) - (retentionSeconds : Int)
  { db with
      changeLog := gcLoop (gcQualifies ws minC cutoff) 1000
        (db.changeLog.length + 1) db.changeLog }

/-- A `users` row. -/
structure UserRow where
  id : String
  email : Option String
  displayName : Option String
  activeWorkspaceId : Option String
  createdAt : Nat
deriving DecidableEq, Repr

/-- A `workspaces` row. -/
structure WorkspaceRow where
  id : String
  name : String
  description : Option String
  ownerUserId : String
  createdAt : Nat
  deleted : Bool
  deletedAt : Option Nat
deriving DecidableEq, Repr

/-- A `workspace_members` row. -/
structure MemberRow where
  id : String
  workspaceId : String
  userId : String
  role : String
  createdAt : Nat
deriving DecidableEq, Repr

/-- The auth-side database state used by getOrCreateDefaultWorkspace. -/
structure AuthDb where
  users : List UserRow
  workspaces : List WorkspaceRow
  members : List MemberRow
deriving DecidableEq, Repr

/-- The membership probe of getOrCreateDefaultWorkspace:
`workspace_members JOIN workspaces`, filtered to the user and `deleted = 0`,
`executeTakeFirst()` — no ORDER BY, modelled as the first match in member-table
order, joining each membership to the first workspace row with its id. -/
def findDefaultMembership (db : AuthDb) (userId : String) :
    Option (String × String) :=
  (db.members.filterMap (fun m =>
    if m.userId == userId then
      match db.workspaces.find? (fun w => w.id == m.workspaceId) with
      | some w => if w.deleted then none else some (w.id, w.name)
      | none => none
    else none)).head?

/-- `SqliteAuthWorkspaceStore.getOrCreateDefaultWorkspace`. The fresh uuids of
the created workspace and membership rows are passed as parameters. Returns
`(workspaceId, workspaceName)` and the new state. -/
def getOrCreateDefaultWorkspace (db : AuthDb) (userId : String)
    (freshWorkspaceId freshMemberId : String) (now : Nat) :
    (String × String) × AuthDb :=
  match findDefaultMembership db userId with
  | some (wid, wname) =>
    ((wid, wname),
     { db with
         users := db.users.map (fun u =>
           if u.id == userId && u.activeWorkspaceId.isNone then
             { u with activeWorkspaceId := some wid }
           else u) })
  | none =>
    ((freshWorkspaceId, "My Workspace"),
     { db with
         workspaces := db.workspaces ++
           [⟨freshWorkspaceId, "My Workspace", none, userId, now, false, none⟩],
         members := db.members ++
           [⟨freshMemberId, freshWorkspaceId, userId, "owner", now⟩],
         users := db.users.map (fun u =>
           if u.id == userId then { u with activeWorkspaceId := some freshWorkspaceId }
           else u) })

/-! ## Generic list helpers -/

theorem lookup_isSome_eq_contains {β : Type} (l : List (String × β)) (a : String) :
    (l.lookup a).isSome = (l.map Prod.fst).contains a := by
  induction l with
  | nil => rfl
  | cons p rest ih =>
    obtain ⟨k, v⟩ := p
    by_cases h : a == k
    · simp [List.lookup_cons, h]
    · rw [List.lookup_cons]
      simp only [Bool.not_eq_true] at h
      rw [h, List.map_cons, List.contains_cons, ih]
      simp [h]

theorem lookup_append {β : Type} (l₁ l₂ : List (String × β)) (a : String) :
    (l₁ ++ l₂).lookup a = ((l₁.lookup a).or (l₂.lookup a)) := by
  induction l₁ with
  | nil => simp
  | cons p rest ih =>
    obtain ⟨k, v⟩ := p
    by_cases h : a == k
    · simp [List.lookup_cons, h]
    · simp only [Bool.not_eq_true] at h
      simp [List.lookup_cons, h, ih]

theorem lookup_map_setval {β : Type} (l : List (String × β)) (ws : String) (v : β) :
    (l.map (fun p => if p.1 == ws then (p.1, v) else p)).lookup ws
      = (l.lookup ws).map (fun _ => v) := by
  induction l with
  | nil => rfl
  | cons p rest ih =>
    obtain ⟨k, w⟩ := p
    by_cases h : k = ws
    · subst h
      simp [List.lookup_cons, ih]
    · have h2 : (ws == k) = false := by simp [Ne.symm h]
      rw [List.map_cons, if_neg (by simp [h]), List.lookup_cons, List.lookup_cons, h2]
      exact ih

theorem writeCounter_of_lookup_some {c : List (String × Nat)} {ws : String}
    {v : Nat} (n : Nat) (h : c.lookup ws = some v) :
    writeCounter c ws n = c.map (fun p => if p.1 == ws then (p.1, v + n) else p) := by
  unfold writeCounter
  rw [h]

theorem writeCounter_of_lookup_none {c : List (String × Nat)} {ws : String}
    (n : Nat) (h : c.lookup ws = none) :
    writeCounter c ws n = c ++ [(ws, n)] := by
  unfold writeCounter
  rw [h]

theorem lookup_writeCounter (c : List (String × Nat)) (ws : String) (n : Nat) :
    (writeCounter c ws n).lookup ws = some ((c.lookup ws).getD 0 + n) := by
  cases hc : c.lookup ws with
  | some base =>
    rw [writeCounter_of_lookup_some n hc, lookup_map_setval, hc]
    rfl
  | none =>
    rw [writeCounter_of_lookup_none n hc, lookup_append, hc]
    simp

theorem map_fix_eq_self {α : Type} (l : List α) (f : α → α)
    (h : ∀ x ∈ l, f x = x) : l.map f = l := by
  induction l with
  | nil => rfl
  | cons x xs ih =>
    rw [List.map_cons, h x (by simp), ih (fun y hy => h y (by simp [hy]))]

theorem writeCounter_keyvals {c : List (String × Nat)} {ws : String} {n : Nat} :
    ∀ p ∈ writeCounter c ws n, (p.1 == ws) = true →
      p.2 = (c.lookup ws).getD 0 + n := by
  unfold writeCounter
  cases hc : c.lookup ws with
  | some base =>
    intro p hp hkey
    simp only [Option.getD_some]
    rcases List.mem_map.mp hp with ⟨q, hq, hfq⟩
    by_cases h : q.1 == ws
    · rw [if_pos h] at hfq
      rw [← hfq]
    · rw [if_neg (by simpa using h)] at hfq
      rw [← hfq] at hkey
      exact absurd hkey (by simpa using h)
  | none =>
    intro p hp hkey
    rcases List.mem_append.mp hp with hmem | hmem
    · have hkey2 : p.1 = ws := by simpa using hkey
      have hne := List.lookup_eq_none_iff.mp hc p hmem
      simp [hkey2] at hne
    · simp only [List.mem_singleton] at hmem
      simp [hmem]

theorem writeCounter_writeCounter_zero (c : List (String × Nat)) (ws : String) (n : Nat) :
    writeCounter (writeCounter c ws n) ws 0 = writeCounter c ws n := by
  have hv := lookup_writeCounter c ws n
  rw [writeCounter_of_lookup_some 0 hv]
  simp only [Nat.add_zero]
  exact map_fix_eq_self _ _ (fun p hp => by
    by_cases h : p.1 == ws
    · rw [if_pos h, ← writeCounter_keyvals p hp h]
    · rw [if_neg h])

/-! ## Sorting helpers for pull -/

/-- Version order on change-log rows. -/
def vle (a b : ChangeLogRow) : Prop := a.serverVersion ≤ b.serverVersion

theorem insertByVersion_perm (r : ChangeLogRow) (l : List ChangeLogRow) :
    (insertByVersion r l).Perm (r :: l) := by
  induction l with
  | nil => exact List.Perm.refl _
  | cons x xs ih =>
    unfold insertByVersion
    by_cases h : r.serverVersion ≤ x.serverVersion
    · rw [if_pos h]
    · rw [if_neg h]
      exact (ih.cons x).trans (List.Perm.swap r x xs)

theorem sortByVersion_perm (l : List ChangeLogRow) : (sortByVersion l).Perm l := by
  induction l with
  | nil => exact List.Perm.refl _
  | cons x xs ih =>
    exact (insertByVersion_perm x (sortByVersion xs)).trans (ih.cons x)

theorem insertByVersion_sorted (r : ChangeLogRow) :
    ∀ {l : List ChangeLogRow}, l.Pairwise vle → (insertByVersion r l).Pairwise vle := by
  intro l
  induction l with
  | nil => intro _; simp [insertByVersion]
  | cons x xs ih =>
    intro h
    rcases List.pairwise_cons.mp h with ⟨hx, hxs⟩
    unfold insertByVersion
    by_cases hle : r.serverVersion ≤ x.serverVersion
    · rw [if_pos hle]
      refine List.pairwise_cons.mpr ⟨?_, h⟩
      intro y hy
      rcases List.mem_cons.mp hy with rfl | hy
      · exact hle
      · exact le_trans hle (hx y hy)
    · rw [if_neg hle]
      refine List.pairwise_cons.mpr ⟨?_, ih hxs⟩
      intro y hy
      rcases List.mem_cons.mp ((insertByVersion_perm r xs).subset hy) with rfl | hy2
      · exact le_of_not_le hle
      · exact hx y hy2

theorem sortByVersion_sorted (l : List ChangeLogRow) :
    (sortByVersion l).Pairwise vle := by
  induction l with
  | nil => simp [sortByVersion]
  | cons x xs ih => exact insertByVersion_sorted x ih

theorem pairwise_vlt_of_nodup {l : List ChangeLogRow} (h1 : l.Pairwise vle)
    (h2 : (l.map (·.serverVersion)).Nodup) :
    l.Pairwise (fun a b => a.serverVersion < b.serverVersion) := by
  have h3 : l.Pairwise (fun a b => a.serverVersion ≠ b.serverVersion) :=
    List.pairwise_map.mp h2
  exact (h1.and h3).imp (fun hab => lt_of_le_of_ne hab.1 hab.2)

/-! ## GC loop helpers -/

theorem deleteUpTo_count {α : Type} (p : α → Bool) :
    ∀ (n : Nat) (l : List α), (deleteUpTo p n l).2 = min n (l.countP p) := by
  intro n l
  induction l generalizing n with
  | nil => cases n <;> simp [deleteUpTo]
  | cons r rest ih =>
    cases n with
    | zero => simp [deleteUpTo]
    | succ m =>
      by_cases h : p r
      · simp only [deleteUpTo, h, if_true, List.countP_cons_of_pos _ _ h, ih]
        omega
      · have h2 : p r = false := by simpa using h
        have hneg : ¬p r = true := by simp [h2]
        simp [deleteUpTo, h2, List.countP_cons_of_neg _ _ hneg, ih]

theorem deleteUpTo_fst_filter {α : Type} (p : α → Bool) :
    ∀ (n : Nat) (l : List α), (deleteUpTo p n l).2 < n →
      (deleteUpTo p n l).1 = l.filter (fun a => !(p a)) := by
  intro n l
  induction l generalizing n with
  | nil => intro _; cases n <;> simp [deleteUpTo]
  | cons r rest ih =>
    cases n with
    | zero => intro h; omega
    | succ m =>
      intro h
      by_cases hp : p r
      · simp only [deleteUpTo, hp, if_true] at h ⊢
        rw [List.filter_cons_of_neg (by simpa using hp)]
        exact ih m (by omega)
      · have h2 : p r = false := by simpa using hp
        simp only [deleteUpTo, h2, Bool.false_eq_true, if_false] at h ⊢
        rw [List.filter_cons_of_pos (by simp [h2])]
        rw [ih (m + 1) h]

theorem deleteUpTo_fst_countP {α : Type} (p : α → Bool) :
    ∀ (n : Nat) (l : List α),
      ((deleteUpTo p n l).1).countP p = l.countP p - (deleteUpTo p n l).2 := by
  intro n l
  induction l generalizing n with
  | nil => cases n <;> simp [deleteUpTo]
  | cons r rest ih =>
    cases n with
    | zero => simp [deleteUpTo]
    | succ m =>
      by_cases hp : p r
      · have hc := deleteUpTo_count p m rest
        simp only [deleteUpTo, hp, if_true, List.countP_cons_of_pos _ _ hp, ih]
        omega
      · have h2 : p r = false := by simpa using hp
        have hneg : ¬p r = true := by simp [h2]
        simp only [deleteUpTo, h2, Bool.false_eq_true, if_false,
          List.countP_cons_of_neg _ _ hneg, ih]

theorem deleteUpTo_fst_filter_neg {α : Type} (p : α → Bool) :
    ∀ (n : Nat) (l : List α),
      ((deleteUpTo p n l).1).filter (fun a => !(p a)) = l.filter (fun a => !(p a)) := by
  intro n l
  induction l generalizing n with
  | nil => cases n <;> simp [deleteUpTo]
  | cons r rest ih =>
    cases n with
    | zero => simp [deleteUpTo]
    | succ m =>
      by_cases hp : p r
      · simp only [deleteUpTo, hp, if_true]
        rw [List.filter_cons_of_neg (by simpa using hp), ih]
      · have h2 : p r = false := by simpa using hp
        simp only [deleteUpTo, h2, Bool.false_eq_true, if_false]
        rw [List.filter_cons_of_pos (by simp [h2]),
          List.filter_cons_of_pos (by simp [h2]), ih]

theorem gcLoop_filter {α : Type} (p : α → Bool) (b : Nat) (hb : 0 < b) :
    ∀ (fuel : Nat) (l : List α), l.countP p ≤ b * fuel →
      gcLoop p b (fuel + 1) l = l.filter (fun a => !(p a)) := by
  intro fuel
  induction fuel with
  | zero =>
    intro l hc
    have hc0 : l.countP p = 0 := by omega
    have h2 : (deleteUpTo p b l).2 < b := by
      rw [deleteUpTo_count, hc0]; omega
    show (if b ≤ (deleteUpTo p b l).2 then gcLoop p b 0 (deleteUpTo p b l).1
          else (deleteUpTo p b l).1) = _
    rw [if_neg (by omega)]
    exact deleteUpTo_fst_filter p b l h2
  | succ f ih =>
    intro l hc
    show (if b ≤ (deleteUpTo p b l).2 then gcLoop p b (f + 1) (deleteUpTo p b l).1
          else (deleteUpTo p b l).1) = _
    by_cases hlt : l.countP p < b
    · have h2 : (deleteUpTo p b l).2 < b := by
        rw [deleteUpTo_count]; omega
      rw [if_neg (by omega)]
      exact deleteUpTo_fst_filter p b l h2
    · have h2 : (deleteUpTo p b l).2 = b := by
        rw [deleteUpTo_count]; omega
      rw [if_pos (by omega)]
      have hms : b * (f + 1) = b * f + b := Nat.mul_succ b f
      have hcount : ((deleteUpTo p b l).1).countP p ≤ b * f := by
        rw [deleteUpTo_fst_countP, h2]
        omega
      rw [ih (deleteUpTo p b l).1 hcount, deleteUpTo_fst_filter_neg]

theorem gcChangeLog_filter (db : Db) (ws : String) (R now : Nat) :
    (gcChangeLog db ws R now).changeLog =
      db.changeLog.filter (fun r =>
        !(gcQualifies ws (minCursorVersion db.cursors ws) ((now : Int) - (R : Int)) r)) := by
  unfold gcChangeLog
  apply gcLoop_filter _ _ (by norm_num)
  calc db.changeLog.countP _ ≤ db.changeLog.length := List.countP_le_length _
    _ ≤ 1000 * db.changeLog.length :=
        Nat.le_mul_of_pos_left db.changeLog.length (by norm_num)

/-! ## Push allocation helpers -/

theorem buildAssigned_lookup_mono (log : List ChangeLogRow) (base : Nat) :
    ∀ (l : List PendingOp) (acc : List (String × Nat)) (off : Nat) (id : String)
      (v : Nat), acc.lookup id = some v →
      (buildAssigned log base l acc off).lookup id = some v := by
  intro l
  induction l with
  | nil => intro acc off id v hv; simpa [buildAssigned] using hv
  | cons op rest ih =>
    intro acc off id v hv
    unfold buildAssigned
    by_cases hex : (findOp? log op.stamp.opId).isSome
    · rw [if_pos hex]; exact ih acc off id v hv
    · rw [if_neg hex]
      by_cases hacc : (acc.lookup op.stamp.opId).isSome
      · rw [if_pos hacc]; exact ih acc off id v hv
      · rw [if_neg hacc]
        apply ih
        rw [lookup_append, hv]
        rfl

theorem uniqueNewOpIds_not_seen (log : List ChangeLogRow) :
    ∀ (l : List PendingOp) (seen : List String) (id : String),
      id ∈ uniqueNewOpIds log l seen → seen.contains id = false := by
  intro l
  induction l with
  | nil => intro seen id h; cases h
  | cons op rest ih =>
    intro seen id h
    unfold uniqueNewOpIds at h
    by_cases hex : (findOp? log op.stamp.opId).isSome
    · rw [if_pos hex] at h; exact ih seen id h
    · rw [if_neg hex] at h
      by_cases hc : seen.contains op.stamp.opId
      · rw [if_pos hc] at h; exact ih seen id h
      · rw [if_neg hc] at h
        rcases List.mem_cons.mp h with rfl | h2
        · simpa using hc
        · have h3 := ih (seen ++ [op.stamp.opId]) id h2
          simp only [List.contains, List.elem_eq_mem, List.mem_append,
            decide_eq_false_iff_not] at h3 ⊢
          exact fun hmem => h3 (Or.inl hmem)

theorem uniqueNewOpIds_new (log : List ChangeLogRow) :
    ∀ (l : List PendingOp) (seen : List String) (id : String),
      id ∈ uniqueNewOpIds log l seen → findOp? log id = none := by
  intro l
  induction l with
  | nil => intro seen id h; cases h
  | cons op rest ih =>
    intro seen id h
    unfold uniqueNewOpIds at h
    by_cases hex : (findOp? log op.stamp.opId).isSome
    · rw [if_pos hex] at h; exact ih seen id h
    · rw [if_neg hex] at h
      by_cases hc : seen.contains op.stamp.opId
      · rw [if_pos hc] at h; exact ih seen id h
      · rw [if_neg hc] at h
        rcases List.mem_cons.mp h with rfl | h2
        · exact Option.not_isSome_iff_eq_none.mp hex
        · exact ih (seen ++ [op.stamp.opId]) id h2

theorem uniqueNewOpIds_nodup (log : List ChangeLogRow) :
    ∀ (l : List PendingOp) (seen : List String),
      (uniqueNewOpIds log l seen).Nodup := by
  intro l
  induction l with
  | nil => intro seen; simp [uniqueNewOpIds]
  | cons op rest ih =>
    intro seen
    unfold uniqueNewOpIds
    by_cases hex : (findOp? log op.stamp.opId).isSome
    · rw [if_pos hex]; exact ih seen
    · rw [if_neg hex]
      by_cases hc : seen.contains op.stamp.opId
      · rw [if_pos hc]; exact ih seen
      · rw [if_neg hc]
        refine List.nodup_cons.mpr ⟨?_, ih (seen ++ [op.stamp.opId])⟩
        intro hmem
        have := uniqueNewOpIds_not_seen log rest (seen ++ [op.stamp.opId])
          op.stamp.opId hmem
        simp at this

theorem uniqueNewOpIds_cons_existing {log : List ChangeLogRow} {op : PendingOp}
    {rest : List PendingOp} {seen : List String}
    (h : (findOp? log op.stamp.opId).isSome = true) :
    uniqueNewOpIds log (op :: rest) seen = uniqueNewOpIds log rest seen := by
  simp only [uniqueNewOpIds]
  rw [if_pos h]

theorem uniqueNewOpIds_cons_seen {log : List ChangeLogRow} {op : PendingOp}
    {rest : List PendingOp} {seen : List String}
    (h1 : (findOp? log op.stamp.opId).isSome = false)
    (h2 : seen.contains op.stamp.opId = true) :
    uniqueNewOpIds log (op :: rest) seen = uniqueNewOpIds log rest seen := by
  simp only [uniqueNewOpIds]
  rw [if_neg (by simp [h1]), if_pos h2]

theorem uniqueNewOpIds_cons_fresh {log : List ChangeLogRow} {op : PendingOp}
    {rest : List PendingOp} {seen : List String}
    (h1 : (findOp? log op.stamp.opId).isSome = false)
    (h2 : seen.contains op.stamp.opId = false) :
    uniqueNewOpIds log (op :: rest) seen
      = op.stamp.opId :: uniqueNewOpIds log rest (seen ++ [op.stamp.opId]) := by
  simp only [uniqueNewOpIds]
  rw [if_neg (by simp [h1]), if_neg (by rw [h2]; simp)]

theorem buildAssigned_cons_existing {log : List ChangeLogRow} {base : Nat}
    {op : PendingOp} {rest : List PendingOp} {acc : List (String × Nat)} {off : Nat}
    (h : (findOp? log op.stamp.opId).isSome = true) :
    buildAssigned log base (op :: rest) acc off
      = buildAssigned log base rest acc off := by
  simp only [buildAssigned]
  rw [if_pos h]

theorem buildAssigned_cons_seen {log : List ChangeLogRow} {base : Nat}
    {op : PendingOp} {rest : List PendingOp} {acc : List (String × Nat)} {off : Nat}
    (h1 : (findOp? log op.stamp.opId).isSome = false)
    (h2 : (acc.lookup op.stamp.opId).isSome = true) :
    buildAssigned log base (op :: rest) acc off
      = buildAssigned log base rest acc off := by
  simp only [buildAssigned]
  rw [if_neg (by simp [h1]), if_pos h2]

theorem buildAssigned_cons_fresh {log : List ChangeLogRow} {base : Nat}
    {op : PendingOp} {rest : List PendingOp} {acc : List (String × Nat)} {off : Nat}
    (h1 : (findOp? log op.stamp.opId).isSome = false)
    (h2 : (acc.lookup op.stamp.opId).isSome = false) :
    buildAssigned log base (op :: rest) acc off
      = buildAssigned log base rest (acc ++ [(op.stamp.opId, base + off + 1)]) (off + 1) := by
  simp only [buildAssigned]
  rw [if_neg (by simp [h1]), if_neg (by simp [h2])]

theorem applyOpState_changeLog (ws : String) (now sv : Nat) (mt : String)
    (op : PendingOp) (db : Db) :
    (applyOpState ws now sv mt op db).changeLog
      = db.changeLog ++ [logRowOf ws now sv op] := by
  cases h : op.operation <;> simp [applyOpState, h]

theorem applyOpState_counters (ws : String) (now sv : Nat) (mt : String)
    (op : PendingOp) (db : Db) :
    (applyOpState ws now sv mt op db).counters = db.counters := by
  cases h : op.operation <;> simp [applyOpState, h]

theorem applyOpState_cursors (ws : String) (now sv : Nat) (mt : String)
    (op : PendingOp) (db : Db) :
    (applyOpState ws now sv mt op db).cursors = db.cursors := by
  cases h : op.operation <;> simp [applyOpState, h]

theorem applyOpState_tombstones_pres (ws : String) (now sv : Nat) (mt : String)
    (op : PendingOp) (db : Db) (P : List TombstoneRow → Prop)
    (hPres : ∀ ts w t k n c s, P ts → P (upsertTombstone ts w t k n c s))
    (hP : P db.tombstones) : P (applyOpState ws now sv mt op db).tombstones := by
  cases h : op.operation <;> simp only [applyOpState, h]
  · exact hP
  · exact hPres _ _ _ _ _ _ _ hP

theorem processOps_cons_existing {ws : String} {now : Nat}
    {existing : String → Option Nat} {assigned : List (String × Nat)}
    {op : PendingOp} {rest : List PendingOp} {processed : List String}
    {acc : List OpResult} {db : Db} {sv : Nat}
    (hex : existing op.stamp.opId = some sv) :
    processOps ws now existing assigned (op :: rest) processed acc db
      = processOps ws now existing assigned rest processed
          (acc ++ [okResult op.stamp.opId sv]) db := by
  simp only [processOps, hex]

theorem processOps_cons_mirror {ws : String} {now : Nat}
    {existing : String → Option Nat} {assigned : List (String × Nat)}
    {op : PendingOp} {rest : List PendingOp} {processed : List String}
    {acc : List OpResult} {db : Db} {sv : Nat}
    (hex : existing op.stamp.opId = none)
    (hlook : assigned.lookup op.stamp.opId = some sv)
    (hproc : processed.contains op.stamp.opId = true) :
    processOps ws now existing assigned (op :: rest) processed acc db
      = processOps ws now existing assigned rest processed
          (acc ++ [okResult op.stamp.opId sv]) db := by
  simp only [processOps, hex, hlook, hproc, if_true]

theorem processOps_cons_fresh {ws : String} {now : Nat}
    {existing : String → Option Nat} {assigned : List (String × Nat)}
    {op : PendingOp} {rest : List PendingOp} {processed : List String}
    {acc : List OpResult} {db : Db} {sv : Nat} {mt : String}
    (hex : existing op.stamp.opId = none)
    (hlook : assigned.lookup op.stamp.opId = some sv)
    (hproc : processed.contains op.stamp.opId = false)
    (hmt : matTableFor op.tableName = some mt) :
    processOps ws now existing assigned (op :: rest) processed acc db
      = processOps ws now existing assigned rest
          (processed ++ [op.stamp.opId]) (acc ++ [okResult op.stamp.opId sv])
          (applyOpState ws now sv mt op db) := by
  simp only [processOps, hex, hlook, hproc, Bool.false_eq_true, if_false, hmt]

theorem processOps_run (ws : String) (now : Nat) (log : List ChangeLogRow) (base : Nat) :
    ∀ (l : List PendingOp) (acc : List (String × Nat)) (off : Nat)
      (resAcc : List OpResult) (db : Db),
      (∀ op ∈ l, (matTableFor op.tableName).isSome) →
      ∃ res newRows db',
        processOps ws now (findOp? log) (buildAssigned log base l acc off) l
          (acc.map Prod.fst) resAcc db = some (resAcc ++ res, db') ∧
        db'.changeLog = db.changeLog ++ newRows ∧
        db'.counters = db.counters ∧
        db'.cursors = db.cursors ∧
        newRows.map (fun r => r.opId) = uniqueNewOpIds log l (acc.map Prod.fst) ∧
        newRows.map (fun r => r.serverVersion) =
          List.range' (base + off + 1) (uniqueNewOpIds log l (acc.map Prod.fst)).length ∧
        (∀ r ∈ newRows, r.workspaceId = ws ∧ r.createdAt = now) ∧
        (∀ P : List TombstoneRow → Prop,
          (∀ ts w t k n c s, P ts → P (upsertTombstone ts w t k n c s)) →
          P db.tombstones → P db'.tombstones) := by
  intro l
  induction l with
  | nil =>
    intro acc off resAcc db _
    exact ⟨[], [], db, by simp [processOps], by simp, rfl, rfl,
      by simp [uniqueNewOpIds], by simp [uniqueNewOpIds], by simp,
      fun P _ hp => hp⟩
  | cons op rest ih =>
    intro acc off resAcc db hmt
    cases hex : findOp? log op.stamp.opId with
    | some sv =>
      have hexs : (findOp? log op.stamp.opId).isSome := by simp [hex]
      have hba : buildAssigned log base (op :: rest) acc off
          = buildAssigned log base rest acc off := buildAssigned_cons_existing hexs
      have huq : uniqueNewOpIds log (op :: rest) (acc.map Prod.fst)
          = uniqueNewOpIds log rest (acc.map Prod.fst) :=
        uniqueNewOpIds_cons_existing hexs
      obtain ⟨res, newRows, db', hrun, hlog, hcnt, hcur, hids, hsvs, hwsn, htmb⟩ :=
        ih acc off (resAcc ++ [okResult op.stamp.opId sv]) db
          (fun o ho => hmt o (List.mem_cons_of_mem _ ho))
      refine ⟨okResult op.stamp.opId sv :: res, newRows, db', ?_, hlog, hcnt, hcur,
        ?_, ?_, hwsn, htmb⟩
      · rw [hba]
        simp only [processOps, hex]
        rw [hrun]
        simp
      · rw [hids, huq]
      · rw [hsvs, huq]
    | none =>
      have hexn : (findOp? log op.stamp.opId).isSome = false := by simp [hex]
      by_cases hc : ((acc.map Prod.fst).contains op.stamp.opId) = true
      · have hacc : (acc.lookup op.stamp.opId).isSome := by
          rw [lookup_isSome_eq_contains]; exact hc
        obtain ⟨v, hv⟩ := Option.isSome_iff_exists.mp hacc
        have hba : buildAssigned log base (op :: rest) acc off
            = buildAssigned log base rest acc off :=
          buildAssigned_cons_seen hexn hacc
        have huq : uniqueNewOpIds log (op :: rest) (acc.map Prod.fst)
            = uniqueNewOpIds log rest (acc.map Prod.fst) :=
          uniqueNewOpIds_cons_seen hexn hc
        have hlook : (buildAssigned log base rest acc off).lookup op.stamp.opId
            = some v := buildAssigned_lookup_mono log base rest acc off _ v hv
        obtain ⟨res, newRows, db', hrun, hlog, hcnt, hcur, hids, hsvs, hwsn, htmb⟩ :=
          ih acc off (resAcc ++ [okResult op.stamp.opId v]) db
            (fun o ho => hmt o (List.mem_cons_of_mem _ ho))
        refine ⟨okResult op.stamp.opId v :: res, newRows, db', ?_, hlog, hcnt, hcur,
          ?_, ?_, hwsn, htmb⟩
        · rw [hba]
          simp only [processOps, hex, hlook, hc, if_true]
          rw [hrun]
          simp
        · rw [hids, huq]
        · rw [hsvs, huq]
      · have hcf : ((acc.map Prod.fst).contains op.stamp.opId) = false := by
          simpa using hc
        have haccn : acc.lookup op.stamp.opId = none := by
          cases hl : acc.lookup op.stamp.opId with
          | none => rfl
          | some v =>
            exfalso; apply hc
            rw [← lookup_isSome_eq_contains, hl]; rfl
        have hba : buildAssigned log base (op :: rest) acc off
            = buildAssigned log base rest
                (acc ++ [(op.stamp.opId, base + off + 1)]) (off + 1) :=
          buildAssigned_cons_fresh hexn (by simp [haccn])
        have hacc2 : ((acc ++ [(op.stamp.opId, base + off + 1)]).lookup op.stamp.opId)
            = some (base + off + 1) := by
          rw [lookup_append, haccn]; simp
        have hlook : ((buildAssigned log base rest
              (acc ++ [(op.stamp.opId, base + off + 1)]) (off + 1)).lookup op.stamp.opId)
            = some (base + off + 1) :=
          buildAssigned_lookup_mono log base rest _ _ _ _ hacc2
        obtain ⟨mt, hmtv⟩ := Option.isSome_iff_exists.mp (hmt op (by simp))
        have hseen : ((acc ++ [(op.stamp.opId, base + off + 1)]).map Prod.fst)
            = acc.map Prod.fst ++ [op.stamp.opId] := by simp
        have huq : uniqueNewOpIds log (op :: rest) (acc.map Prod.fst)
            = op.stamp.opId ::
              uniqueNewOpIds log rest (acc.map Prod.fst ++ [op.stamp.opId]) :=
          uniqueNewOpIds_cons_fresh hexn hcf
        obtain ⟨res, newRows, db', hrun, hlog, hcnt, hcur, hids, hsvs, hwsn, htmb⟩ :=
          ih (acc ++ [(op.stamp.opId, base + off + 1)]) (off + 1)
            (resAcc ++ [okResult op.stamp.opId (base + off + 1)])
            (applyOpState ws now (base + off + 1) mt op db)
            (fun o ho => hmt o (List.mem_cons_of_mem _ ho))
        rw [hseen] at hrun hids hsvs
        refine ⟨okResult op.stamp.opId (base + off + 1) :: res,
          logRowOf ws now (base + off + 1) op :: newRows, db', ?_, ?_, ?_, ?_,
          ?_, ?_, ?_, ?_⟩
        · rw [hba, processOps_cons_fresh hex hlook hcf hmtv]
          rw [hrun]
          simp
        · rw [hlog, applyOpState_changeLog]
          simp
        · rw [hcnt, applyOpState_counters]
        · rw [hcur, applyOpState_cursors]
        · rw [huq]
          simp only [List.map_cons, hids, logRowOf]
        · rw [huq]
          simp only [List.map_cons, hsvs, logRowOf, List.length_cons,
            List.range'_succ]
          rfl
        · intro r hr
          rcases List.mem_cons.mp hr with rfl | hr2
          · exact ⟨rfl, rfl⟩
          · exact hwsn r hr2
        · intro P hPres hP
          exact htmb P hPres (applyOpState_tombstones_pres ws now (base + off + 1)
            mt op db P hPres hP)

theorem contains_eq_true_of_mem {l : List String} {a : String} (h : a ∈ l) :
    l.contains a = true := by
  simp [List.contains, List.elem_eq_mem, h]

theorem matTableFor_isSome_of_mem {t : String} (h : t ∈ ALLOWED_SYNC_TABLES) :
    (matTableFor t).isSome = true := by
  rw [show matTableFor t = SYNCED_TABLE_MAP.lookup t from rfl,
    lookup_isSome_eq_contains]
  exact contains_eq_true_of_mem h

theorem push_of_pushAux {ws : String} {ops : List PendingOp} {now : Nat} {db : Db}
    {x : PushResult × Db} (h : pushAux ws ops now db = some x) :
    push ws ops now db = x := by
  simp [push, h]

theorem pushAux_valid (ws : String) (ops : List PendingOp) (now : Nat) (db : Db)
    (hne : ops ≠ [])
    (hall : ∀ op ∈ ops, op.tableName ∈ ALLOWED_SYNC_TABLES) :
    ∃ res newRows db',
      pushAux ws ops now db = some (⟨res, (db.counters.lookup ws).getD 0
          + (uniqueNewOpIds db.changeLog ops []).length⟩, db') ∧
      db'.changeLog = db.changeLog ++ newRows ∧
      db'.counters = writeCounter db.counters ws
        (uniqueNewOpIds db.changeLog ops []).length ∧
      db'.cursors = db.cursors ∧
      newRows.map (fun r => r.opId) = uniqueNewOpIds db.changeLog ops [] ∧
      newRows.map (fun r => r.serverVersion) =
        List.range' ((db.counters.lookup ws).getD 0 + 1)
          (uniqueNewOpIds db.changeLog ops []).length ∧
      (∀ r ∈ newRows, r.workspaceId = ws ∧ r.createdAt = now) ∧
      (∀ P : List TombstoneRow → Prop,
        (∀ ts w t k n c s, P ts → P (upsertTombstone ts w t k n c s)) →
        P db.tombstones → P db'.tombstones) := by
  have hmt : ∀ op ∈ ops, (matTableFor op.tableName).isSome = true :=
    fun op ho => matTableFor_isSome_of_mem (hall op ho)
  obtain ⟨res, newRows, db', hrun, hlog, hcnt, hcur, hids, hsvs, hwsn, htmb⟩ :=
    processOps_run ws now db.changeLog ((db.counters.lookup ws).getD 0) ops [] 0 []
      { db with
          counters :=
            writeCounter db.counters ws (uniqueNewOpIds db.changeLog ops []).length }
      hmt
  simp only [List.map_nil, List.nil_append] at hrun hids hsvs
  refine ⟨res, newRows, db', ?_, by simpa using hlog, by simpa using hcnt,
    by simpa using hcur, hids, hsvs, hwsn, by simpa using htmb⟩
  have hie : ops.isEmpty = false := by
    cases ops with
    | nil => exact absurd rfl hne
    | cons a l => rfl
  have hany : (ops.any fun op => !(ALLOWED_SYNC_TABLES.contains op.tableName))
      = false := by
    rw [List.any_eq_false]
    intro op ho
    rw [contains_eq_true_of_mem (hall op ho)]
    simp
  simp only [pushAux, hie, Bool.false_eq_true, if_false, hany]
  rw [hrun]

/-- Claim C1: a committed push to workspace w reads the counter (missing row
as 0) as base, writes back base + N with N the number of distinct op_ids of
the batch that are not already in the change log, assigns the i-th such
distinct new op (first-occurrence order) server_version base + i as the
appended change-log rows, reports the post-call counter value base + N as the
response server_version, and preserves the invariant that w's change-log
server_versions are exactly 1..counter(w). -/
theorem claim_C1_counter_allocation (ws : String) (ops : List PendingOp)
    (now : Nat) (db : Db) (hne : ops ≠ [])
    (hall : ∀ op ∈ ops, op.tableName ∈ ALLOWED_SYNC_TABLES) :
    ∃ res db' newRows,
      push ws ops now db = (res, db') ∧
      db'.counters.lookup ws = some ((db.counters.lookup ws).getD 0
        + (uniqueNewOpIds db.changeLog ops []).length) ∧
      res.serverVersion = (db.counters.lookup ws).getD 0
        + (uniqueNewOpIds db.changeLog ops []).length ∧
      db'.changeLog = db.changeLog ++ newRows ∧
      newRows.map (fun r => r.opId) = uniqueNewOpIds db.changeLog ops [] ∧
      newRows.map (fun r => r.serverVersion) =
        List.range' ((db.counters.lookup ws).getD 0 + 1)
          (uniqueNewOpIds db.changeLog ops []).length ∧
      (∀ r ∈ newRows, r.workspaceId = ws) ∧
      (((db.changeLog.filter (fun r => r.workspaceId == ws)).map
          (fun r => r.serverVersion)).Perm
          (List.range' 1 ((db.counters.lookup ws).getD 0)) →
        ((db'.changeLog.filter (fun r => r.workspaceId == ws)).map
          (fun r => r.serverVersion)).Perm
          (List.range' 1 ((db'.counters.lookup ws).getD 0))) := by
  obtain ⟨res, newRows, db', haux, hlog, hcnt, hcur, hids, hsvs, hwsn, htmb⟩ :=
    pushAux_valid ws ops now db hne hall
  have hcv : db'.counters.lookup ws = some ((db.counters.lookup ws).getD 0
      + (uniqueNewOpIds db.changeLog ops []).length) := by
    rw [hcnt]; exact lookup_writeCounter _ _ _
  refine ⟨_, db', newRows, push_of_pushAux haux, hcv, rfl, hlog, hids, hsvs,
    fun r hr => (hwsn r hr).1, ?_⟩
  intro hper
  rw [hlog, hcv, List.filter_append, List.map_append]
  have hfilter : newRows.filter (fun r => r.workspaceId == ws) = newRows := by
    apply List.filter_eq_self.mpr
    intro r hr
    simp [(hwsn r hr).1]
  rw [hfilter, hsvs]
  simp only [Option.getD_some]
  have happ := List.range'_append_1 1 ((db.counters.lookup ws).getD 0)
    (uniqueNewOpIds db.changeLog ops []).length
  rw [Nat.add_comm 1 ((db.counters.lookup ws).getD 0)] at happ
  rw [Nat.add_comm ((uniqueNewOpIds db.changeLog ops []).length)
    ((db.counters.lookup ws).getD 0)] at happ
  rw [← happ]
  exact hper.append (List.Perm.refl _)

theorem pushAux_invalid (ws : String) (ops : List PendingOp) (now : Nat) (db : Db)
    (hbad : ∃ op ∈ ops, op.tableName ∉ ALLOWED_SYNC_TABLES) :
    pushAux ws ops now db = some (⟨ops.map invalidTableResult, 0⟩, db) := by
  obtain ⟨op, hop, hmem⟩ := hbad
  have hie : ops.isEmpty = false := by
    cases ops with
    | nil => cases hop
    | cons a l => rfl
  have hany :
      (ops.any fun o => !(ALLOWED_SYNC_TABLES.contains o.tableName)) = true := by
    rw [List.any_eq_true]
    refine ⟨op, hop, ?_⟩
    have hcf : ALLOWED_SYNC_TABLES.contains op.tableName = false := by
      simp [List.contains, List.elem_eq_mem, hmem]
    rw [hcf]
    rfl
  simp only [pushAux, hie, Bool.false_eq_true, if_false, hany]
  rw [if_pos trivial]

theorem uniqueNewOpIds_all_existing (log : List ChangeLogRow) :
    ∀ (l : List PendingOp) (seen : List String),
      (∀ op ∈ l, (findOp? log op.stamp.opId).isSome = true) →
      uniqueNewOpIds log l seen = [] := by
  intro l
  induction l with
  | nil => intro seen _; rfl
  | cons op rest ih =>
    intro seen hex
    rw [uniqueNewOpIds_cons_existing (hex op (by simp))]
    exact ih seen (fun o ho => hex o (by simp [ho]))

theorem processOps_all_existing (ws : String) (now : Nat)
    (existing : String → Option Nat) (assigned : List (String × Nat)) :
    ∀ (l : List PendingOp) (processed : List String) (acc : List OpResult)
      (db : Db),
      (∀ op ∈ l, (existing op.stamp.opId).isSome = true) →
      processOps ws now existing assigned l processed acc db
        = some (acc ++ l.map (fun op => okResult op.stamp.opId
            ((existing op.stamp.opId).getD 0)), db) := by
  intro l
  induction l with
  | nil => intro processed acc db _; simp [processOps]
  | cons op rest ih =>
    intro processed acc db hex
    obtain ⟨sv, hsv⟩ := Option.isSome_iff_exists.mp (hex op (by simp))
    rw [processOps_cons_existing hsv,
      ih processed _ db (fun o ho => hex o (by simp [ho]))]
    simp [hsv]

theorem pushAux_replay (ws : String) (ops : List PendingOp) (now : Nat) (db : Db)
    (hne : ops ≠ [])
    (hall : ∀ op ∈ ops, op.tableName ∈ ALLOWED_SYNC_TABLES)
    (hex : ∀ op ∈ ops, (findOp? db.changeLog op.stamp.opId).isSome = true) :
    pushAux ws ops now db
      = some (⟨ops.map (fun op => okResult op.stamp.opId
            ((findOp? db.changeLog op.stamp.opId).getD 0)),
          (db.counters.lookup ws).getD 0⟩,
        { db with counters := writeCounter db.counters ws 0 }) := by
  have hie : ops.isEmpty = false := by
    cases ops with
    | nil => exact absurd rfl hne
    | cons a l => rfl
  have hany :
      (ops.any fun op => !(ALLOWED_SYNC_TABLES.contains op.tableName)) = false := by
    rw [List.any_eq_false]
    intro op ho
    rw [contains_eq_true_of_mem (hall op ho)]
    simp
  have huq : uniqueNewOpIds db.changeLog ops [] = [] :=
    uniqueNewOpIds_all_existing db.changeLog ops [] hex
  simp only [pushAux, hie, Bool.false_eq_true, if_false, hany, huq,
    List.length_nil]
  rw [processOps_all_existing ws now (findOp? db.changeLog) _ ops [] []
    { db with counters := writeCounter db.counters ws 0 } hex]
  simp

/-! ## Claim C7 -/

/-- Claim C7: when any op of a push batch names a table outside the static
allowlist, the whole batch is rejected: every result carries success=false
with error_code VALIDATION_ERROR, and the database state is returned
untouched. -/
theorem claim_C7_validation_rejects_batch (ws : String) (ops : List PendingOp)
    (now : Nat) (db : Db)
    (hbad : ∃ op ∈ ops, op.tableName ∉ ALLOWED_SYNC_TABLES) :
    push ws ops now db = (⟨ops.map invalidTableResult, 0⟩, db) ∧
    (∀ r ∈ (push ws ops now db).1.results, r.success = false ∧
      r.errorCode = some "VALIDATION_ERROR") := by
  have hp := push_of_pushAux (pushAux_invalid ws ops now db hbad)
  refine ⟨hp, ?_⟩
  intro r hr
  rw [hp] at hr
  rcases List.mem_map.mp hr with ⟨o, _, rfl⟩
  exact ⟨rfl, rfl⟩

/-- A sync op on an unknown table, for the C7 witness. -/
def exBadOp : PendingOp :=
  ⟨"bogus", .put, "x1", none, ⟨"devA", "op-bad", "hA", 1⟩⟩

/-- A sync op on the allowed threads table. -/
def exOp1 : PendingOp :=
  ⟨"threads", .put, "t1", some "p1", ⟨"devA", "op-1", "hA", 1⟩⟩

/-- The empty database state. -/
def exDb0 : Db := ⟨[], [], [], [], []⟩

theorem claim_C7_witness :
    push "w1" [exBadOp, exOp1] 3 exDb0
      = (⟨[exBadOp, exOp1].map invalidTableResult, 0⟩, exDb0) ∧
    (∀ r ∈ (push "w1" [exBadOp, exOp1] 3 exDb0).1.results, r.success = false ∧
      r.errorCode = some "VALIDATION_ERROR") :=
  claim_C7_validation_rejects_batch "w1" [exBadOp, exOp1] 3 exDb0
    ⟨exBadOp, by decide, by decide⟩

/-! ## Claim C8 (corrected) -/

/-- A database whose workspace w1 counter is 5, with an empty change log. -/
def exDbCounter5 : Db := ⟨[], [("w1", 5)], [], [], []⟩

/-- Claim C8 counterexample: the claim says an empty push reports the current
counter value; on a workspace whose counter is 5 the code returns
server_version 0 instead. -/
theorem claim_C8_counterexample :
    (exDbCounter5.counters.lookup "w1").getD 0 = 5 ∧
    push "w1" [] 7 exDbCounter5 = (⟨[], 0⟩, exDbCounter5) ∧
    (push "w1" [] 7 exDbCounter5).1.serverVersion
      ≠ (exDbCounter5.counters.lookup "w1").getD 0 := by
  refine ⟨rfl, rfl, ?_⟩
  decide

/-- Claim C8 as amended: a push with an empty ops list performs no state
change, allocates nothing, and always returns an empty results array with
server_version 0 (not the current counter value). -/
theorem claim_C8_empty_push (ws : String) (now : Nat) (db : Db) :
    push ws [] now db = (⟨[], 0⟩, db) := rfl

/-! ## Claim C10 -/

/-- Claim C10: the idempotency probe searches the whole change log with no
workspace filter, so a push to workspace B of an op already committed (under
any workspace, in particular a different one) reports success with the
original row's server_version and leaves B's change log, materialized tables,
tombstones and counter value unchanged. -/
theorem claim_C10_global_idempotency_probe (ws : String) (op : PendingOp)
    (now : Nat) (db : Db) (sv : Nat)
    (hrow : findOp? db.changeLog op.stamp.opId = some sv)
    (hall : op.tableName ∈ ALLOWED_SYNC_TABLES) :
    (push ws [op] now db).1.results = [okResult op.stamp.opId sv] ∧
    (push ws [op] now db).1.serverVersion = (db.counters.lookup ws).getD 0 ∧
    (push ws [op] now db).2.changeLog = db.changeLog ∧
    (push ws [op] now db).2.mat = db.mat ∧
    (push ws [op] now db).2.tombstones = db.tombstones ∧
    (push ws [op] now db).2.cursors = db.cursors ∧
    ((push ws [op] now db).2.counters.lookup ws).getD 0
      = (db.counters.lookup ws).getD 0 := by
  have hp := push_of_pushAux (pushAux_replay ws [op] now db (by simp)
    (fun o ho => by rw [List.mem_singleton.mp ho]; exact hall)
    (fun o ho => by rw [List.mem_singleton.mp ho]; simp [hrow]))
  rw [hp]
  refine ⟨by simp [hrow], rfl, rfl, rfl, rfl, rfl, ?_⟩
  show ((writeCounter db.counters ws 0).lookup ws).getD 0 = _
  rw [lookup_writeCounter]
  simp

/-- A change-log row committed under workspace wsA with op_id op-x. -/
def exRowWsA : ChangeLogRow :=
  ⟨"wsA", 1, "threads", "t1", .put, none, 1, "hA", "devA", "op-x", 0⟩

/-- A database whose only change-log row belongs to workspace wsA. -/
def exDbWsA : Db := ⟨[exRowWsA], [("wsA", 1)], [], [], []⟩

/-- A retransmission of op-x, pushed to a different workspace. -/
def exOpX : PendingOp :=
  ⟨"threads", .put, "t1", some "p2", ⟨"devB", "op-x", "hB", 9⟩⟩

theorem claim_C10_witness :
    (findOp? exDbWsA.changeLog exOpX.stamp.opId = some 1 ∧
      exOpX.tableName ∈ ALLOWED_SYNC_TABLES ∧ exRowWsA.workspaceId ≠ "wsB") ∧
    ((push "wsB" [exOpX] 5 exDbWsA).1.results = [okResult exOpX.stamp.opId 1] ∧
      (push "wsB" [exOpX] 5 exDbWsA).1.serverVersion
        = (exDbWsA.counters.lookup "wsB").getD 0 ∧
      (push "wsB" [exOpX] 5 exDbWsA).2.changeLog = exDbWsA.changeLog ∧
      (push "wsB" [exOpX] 5 exDbWsA).2.mat = exDbWsA.mat ∧
      (push "wsB" [exOpX] 5 exDbWsA).2.tombstones = exDbWsA.tombstones ∧
      (push "wsB" [exOpX] 5 exDbWsA).2.cursors = exDbWsA.cursors ∧
      ((push "wsB" [exOpX] 5 exDbWsA).2.counters.lookup "wsB").getD 0
        = (exDbWsA.counters.lookup "wsB").getD 0) :=
  ⟨⟨by decide, by decide, by decide⟩,
    claim_C10_global_idempotency_probe "wsB" exOpX 5 exDbWsA 1
      (by decide) (by decide)⟩

theorem claim_C1_witness :
    (([exOp1] : List PendingOp) ≠ [] ∧
      ∀ op ∈ [exOp1], op.tableName ∈ ALLOWED_SYNC_TABLES) ∧
    (∃ res db' newRows,
      push "w1" [exOp1] 7 exDb0 = (res, db') ∧
      db'.counters.lookup "w1" = some ((exDb0.counters.lookup "w1").getD 0
        + (uniqueNewOpIds exDb0.changeLog [exOp1] []).length) ∧
      res.serverVersion = (exDb0.counters.lookup "w1").getD 0
        + (uniqueNewOpIds exDb0.changeLog [exOp1] []).length ∧
      db'.changeLog = exDb0.changeLog ++ newRows ∧
      newRows.map (fun r => r.opId) = uniqueNewOpIds exDb0.changeLog [exOp1] [] ∧
      newRows.map (fun r => r.serverVersion) =
        List.range' ((exDb0.counters.lookup "w1").getD 0 + 1)
          (uniqueNewOpIds exDb0.changeLog [exOp1] []).length ∧
      (∀ r ∈ newRows, r.workspaceId = "w1") ∧
      (((exDb0.changeLog.filter (fun r => r.workspaceId == "w1")).map
          (fun r => r.serverVersion)).Perm
          (List.range' 1 ((exDb0.counters.lookup "w1").getD 0)) →
        ((db'.changeLog.filter (fun r => r.workspaceId == "w1")).map
          (fun r => r.serverVersion)).Perm
          (List.range' 1 ((db'.counters.lookup "w1").getD 0)))) :=
  ⟨⟨by decide, by decide⟩,
    claim_C1_counter_allocation "w1" [exOp1] 7 exDb0 (by decide) (by decide)⟩

/-! ## Single-op push computations -/

theorem mem_of_contains_eq_true {l : List String} {a : String}
    (h : l.contains a = true) : a ∈ l := by
  simpa [List.contains, List.elem_eq_mem] using h

theorem mem_allowed_of_matTableFor {t mt : String} (h : matTableFor t = some mt) :
    t ∈ ALLOWED_SYNC_TABLES := by
  have hs : (matTableFor t).isSome = true := by simp [h]
  rw [show matTableFor t = SYNCED_TABLE_MAP.lookup t from rfl,
    lookup_isSome_eq_contains] at hs
  exact mem_of_contains_eq_true hs

theorem incomingWinsLww_iff (inClock : Nat) (inHlc : String) (exClock : Nat)
    (exHlc : String) :
    incomingWinsLww inClock inHlc exClock exHlc = true ↔
      (exClock < inClock ∨ (inClock = exClock ∧ exHlc < inHlc)) := by
  unfold incomingWinsLww
  split_ifs with h1 h2
  · simp [h1]
  · rw [Bool.and_eq_true, beq_iff_eq] at h2
    have hh := of_decide_eq_true h2.2
    constructor
    · intro _; exact Or.inr ⟨h2.1, hh⟩
    · intro _; rfl
  · rw [Bool.and_eq_true, beq_iff_eq] at h2
    constructor
    · intro h; cases h
    · intro h
      rcases h with h | ⟨hc, hh⟩
      · exact absurd h h1
      · exact absurd ⟨hc, decide_eq_true hh⟩ h2

theorem pushAux_single_new (ws : String) (op : PendingOp) (now : Nat) (db : Db)
    (mt : String) (hmtv : matTableFor op.tableName = some mt)
    (hfo : findOp? db.changeLog op.stamp.opId = none) :
    pushAux ws [op] now db
      = some (⟨[okResult op.stamp.opId ((db.counters.lookup ws).getD 0 + 1)],
          (db.counters.lookup ws).getD 0 + 1⟩,
        applyOpState ws now ((db.counters.lookup ws).getD 0 + 1) mt op
          { db with counters := writeCounter db.counters ws 1 }) := by
  have hallow := mem_allowed_of_matTableFor hmtv
  have hexn : (findOp? db.changeLog op.stamp.opId).isSome = false := by simp [hfo]
  have hie : ([op] : List PendingOp).isEmpty = false := rfl
  have hany :
      (([op] : List PendingOp).any
        fun o => !(ALLOWED_SYNC_TABLES.contains o.tableName)) = false := by
    rw [List.any_eq_false]
    intro o ho
    rw [List.mem_singleton.mp ho, contains_eq_true_of_mem hallow]
    simp
  have huq : uniqueNewOpIds db.changeLog [op] [] = [op.stamp.opId] := by
    rw [uniqueNewOpIds_cons_fresh hexn
      (show ([] : List String).contains op.stamp.opId = false from rfl)]
    rfl
  have hba : buildAssigned db.changeLog ((db.counters.lookup ws).getD 0) [op] [] 0
      = [(op.stamp.opId, (db.counters.lookup ws).getD 0 + 1)] := by
    rw [buildAssigned_cons_fresh hexn
      (show ((([] : List (String × Nat))).lookup op.stamp.opId).isSome = false
        from rfl)]
    rfl
  have hlook :
      (([(op.stamp.opId, (db.counters.lookup ws).getD 0 + 1)]).lookup op.stamp.opId)
      = some ((db.counters.lookup ws).getD 0 + 1) := by simp
  simp only [pushAux, hie, Bool.false_eq_true, if_false, hany, huq,
    List.length_cons, List.length_nil, hba]
  rw [processOps_cons_fresh hfo hlook
    (show ([] : List String).contains op.stamp.opId = false from rfl) hmtv]
  simp [processOps]

theorem pushAux_pair_dup (ws : String) (op : PendingOp) (now : Nat) (db : Db)
    (mt : String) (hmtv : matTableFor op.tableName = some mt)
    (hfo : findOp? db.changeLog op.stamp.opId = none) :
    pushAux ws [op, op] now db
      = some (⟨[okResult op.stamp.opId ((db.counters.lookup ws).getD 0 + 1),
          okResult op.stamp.opId ((db.counters.lookup ws).getD 0 + 1)],
          (db.counters.lookup ws).getD 0 + 1⟩,
        applyOpState ws now ((db.counters.lookup ws).getD 0 + 1) mt op
          { db with counters := writeCounter db.counters ws 1 }) := by
  have hallow := mem_allowed_of_matTableFor hmtv
  have hexn : (findOp? db.changeLog op.stamp.opId).isSome = false := by simp [hfo]
  have hie : ([op, op] : List PendingOp).isEmpty = false := rfl
  have hany :
      (([op, op] : List PendingOp).any
        fun o => !(ALLOWED_SYNC_TABLES.contains o.tableName)) = false := by
    rw [List.any_eq_false]
    intro o ho
    rcases List.mem_cons.mp ho with rfl | ho2
    · rw [contains_eq_true_of_mem hallow]; simp
    · rw [List.mem_singleton.mp ho2, contains_eq_true_of_mem hallow]; simp
  have hcontains : ([op.stamp.opId] : List String).contains op.stamp.opId = true := by
    simp
  have huq : uniqueNewOpIds db.changeLog [op, op] [] = [op.stamp.opId] := by
    rw [uniqueNewOpIds_cons_fresh hexn
      (show ([] : List String).contains op.stamp.opId = false from rfl)]
    simp only [List.nil_append]
    rw [uniqueNewOpIds_cons_seen hexn
      (show ([op.stamp.opId] : List String).contains op.stamp.opId = true
        by simp)]
    rfl
  have haccl : (([(op.stamp.opId, (db.counters.lookup ws).getD 0 + 1)] :
      List (String × Nat)).lookup op.stamp.opId).isSome = true := by simp
  have hba : buildAssigned db.changeLog ((db.counters.lookup ws).getD 0)
      [op, op] [] 0
      = [(op.stamp.opId, (db.counters.lookup ws).getD 0 + 1)] := by
    rw [buildAssigned_cons_fresh hexn
      (show ((([] : List (String × Nat))).lookup op.stamp.opId).isSome = false
        from rfl)]
    simp only [List.nil_append, Nat.add_zero]
    rw [buildAssigned_cons_seen hexn haccl]
    rfl
  have hlook :
      (([(op.stamp.opId, (db.counters.lookup ws).getD 0 + 1)]).lookup op.stamp.opId)
      = some ((db.counters.lookup ws).getD 0 + 1) := by simp
  simp only [pushAux, hie, Bool.false_eq_true, if_false, hany, huq,
    List.length_cons, List.length_nil, hba]
  rw [processOps_cons_fresh hfo hlook
    (show ([] : List String).contains op.stamp.opId = false from rfl) hmtv]
  simp only [List.nil_append]
  rw [processOps_cons_mirror hfo hlook
    (show ([op.stamp.opId] : List String).contains op.stamp.opId = true
      by simp)]
  simp [processOps]

/-! ## Claim C3 -/

/-- Claim C3: a push op whose key already has a materialized row modifies it
iff the op wins the LWW comparison (strictly greater clock, or equal clock and
strictly greater HLC under string order); a winning put overwrites data, stamp
fields and clears the deleted flag; a winning delete sets the flag and
overwrites the stamp; a losing op of either kind leaves the whole table
untouched (so a losing put cannot clear a delete's flag). -/
theorem claim_C3_lww_existing_row (ws : String) (op : PendingOp) (now : Nat)
    (db : Db) (mt : String) (ex : MatRow)
    (hmtv : matTableFor op.tableName = some mt)
    (hfo : findOp? db.changeLog op.stamp.opId = none)
    (hex : findMat db.mat mt op.pk ws = some ex) :
    (incomingWinsLww op.stamp.clock op.stamp.hlc ex.clock ex.hlc = true ↔
      (ex.clock < op.stamp.clock ∨
        (op.stamp.clock = ex.clock ∧ ex.hlc < op.stamp.hlc))) ∧
    (op.operation = .put →
      incomingWinsLww op.stamp.clock op.stamp.hlc ex.clock ex.hlc = true →
      (push ws [op] now db).2.mat = db.mat.map (fun r =>
        if matKey mt op.pk ws r then
          { r with dataJson := op.payload.getD "\x7b\x7d",
                   clock := op.stamp.clock, hlc := op.stamp.hlc,
                   deviceId := op.stamp.deviceId, deleted := false,
                   updatedAt := now }
        else r)) ∧
    (op.operation = .put →
      incomingWinsLww op.stamp.clock op.stamp.hlc ex.clock ex.hlc = false →
      (push ws [op] now db).2.mat = db.mat) ∧
    (op.operation = .del →
      incomingWinsLww op.stamp.clock op.stamp.hlc ex.clock ex.hlc = true →
      (push ws [op] now db).2.mat = db.mat.map (fun r =>
        if matKey mt op.pk ws r then
          { r with deleted := true, clock := op.stamp.clock,
                   hlc := op.stamp.hlc, deviceId := op.stamp.deviceId,
                   updatedAt := now }
        else r)) ∧
    (op.operation = .del →
      incomingWinsLww op.stamp.clock op.stamp.hlc ex.clock ex.hlc = false →
      (push ws [op] now db).2.mat = db.mat) := by
  have hp := push_of_pushAux (pushAux_single_new ws op now db mt hmtv hfo)
  refine ⟨incomingWinsLww_iff _ _ _ _, ?_, ?_, ?_, ?_⟩
  · intro hop hwins
    rw [hp]
    simp only [applyOpState, hop, applyPutMat, hex]
    rw [hwins, if_pos rfl]
  · intro hop hwins
    rw [hp]
    simp only [applyOpState, hop, applyPutMat, hex]
    rw [hwins, if_neg (by simp)]
  · intro hop hwins
    rw [hp]
    simp only [applyOpState, hop, applyDeleteMat, hex]
    rw [hwins, if_pos rfl]
  · intro hop hwins
    rw [hp]
    simp only [applyOpState, hop, applyDeleteMat, hex]
    rw [hwins, if_neg (by simp)]

/-- A materialized threads row at clock 2 for the C3 witness. -/
def exMatRow : MatRow :=
  ⟨"s_threads", "t1", "w1", "old", 2, "hA", "devA", false, 0, 0⟩

/-- A database holding only that materialized row. -/
def exDbMat : Db := ⟨[], [], [exMatRow], [], []⟩

/-- A put op at clock 3 on the same key. -/
def exOpPut3 : PendingOp :=
  ⟨"threads", .put, "t1", some "new", ⟨"devB", "op-9", "hB", 3⟩⟩

theorem claim_C3_witness :
    incomingWinsLww exOpPut3.stamp.clock exOpPut3.stamp.hlc exMatRow.clock
      exMatRow.hlc = true ∧
    (push "w1" [exOpPut3] 9 exDbMat).2.mat = exDbMat.mat.map (fun r =>
      if matKey "s_threads" exOpPut3.pk "w1" r then
        { r with dataJson := exOpPut3.payload.getD "\x7b\x7d",
                 clock := exOpPut3.stamp.clock, hlc := exOpPut3.stamp.hlc,
                 deviceId := exOpPut3.stamp.deviceId, deleted := false,
                 updatedAt := 9 }
      else r) := by
  have h := claim_C3_lww_existing_row "w1" exOpPut3 9 exDbMat "s_threads"
    exMatRow (by decide) rfl (by decide)
  exact ⟨by decide, h.2.1 rfl (by decide)⟩

/-! ## Claim C4 -/

theorem find?_unique_of_countP_le_one {α : Type} {p : α → Bool} {l : List α}
    {t0 : α} (hf : l.find? p = some t0) (hc : l.countP p ≤ 1) :
    ∀ t ∈ l, p t = true → t = t0 := by
  induction l with
  | nil => intro t ht; cases ht
  | cons x rest ih =>
    intro t ht hp
    by_cases hx : p x
    · rw [List.find?_cons_of_pos _ hx] at hf
      injection hf with hf
      rcases List.mem_cons.mp ht with rfl | ht2
      · exact hf
      · exfalso
        rw [List.countP_cons_of_pos _ _ hx] at hc
        have hz : rest.countP p = 0 := by omega
        exact absurd hp (by simpa using List.countP_eq_zero.mp hz t ht2)
    · rw [List.find?_cons_of_neg _ hx] at hf
      rw [List.countP_cons_of_neg _ _ hx] at hc
      rcases List.mem_cons.mp ht with rfl | ht2
      · exact absurd hp (by simpa using hx)
      · exact ih hf hc t ht2 hp

theorem upsertTombstone_of_none {ts : List TombstoneRow} {ws tbl pk : String}
    (now clock sv : Nat) (h : ts.find? (tombKey ws tbl pk) = none) :
    upsertTombstone ts ws tbl pk now clock sv
      = ts ++ [⟨ws, tbl, pk, now, clock, sv, now⟩] := by
  unfold upsertTombstone
  rw [h]

theorem upsertTombstone_of_some_lose {ts : List TombstoneRow}
    {ws tbl pk : String} {t0 : TombstoneRow} (now clock sv : Nat)
    (h : ts.find? (tombKey ws tbl pk) = some t0)
    (hinv : ts.countP (tombKey ws tbl pk) ≤ 1)
    (hlose : (clock > t0.clock || (clock == t0.clock && sv > t0.serverVersion))
      = false) :
    upsertTombstone ts ws tbl pk now clock sv = ts := by
  unfold upsertTombstone
  rw [h]
  apply map_fix_eq_self
  intro t ht
  by_cases hk : tombKey ws tbl pk t
  · have ht0 := find?_unique_of_countP_le_one h hinv t ht hk
    subst ht0
    rw [if_neg (by rw [hlose]; simp)]
  · rw [if_neg (by simp [hk])]

theorem upsertTombstone_of_some_win {ts : List TombstoneRow}
    {ws tbl pk : String} {t0 : TombstoneRow} (now clock sv : Nat)
    (h : ts.find? (tombKey ws tbl pk) = some t0)
    (hwin : (clock > t0.clock || (clock == t0.clock && sv > t0.serverVersion))
      = true) :
    (upsertTombstone ts ws tbl pk now clock sv).find? (tombKey ws tbl pk)
      = some { t0 with deletedAt := now, clock := clock, serverVersion := sv } ∧
    (∀ t ∈ ts, tombKey ws tbl pk t = false →
      t ∈ upsertTombstone ts ws tbl pk now clock sv) := by
  unfold upsertTombstone
  rw [h]
  constructor
  · rw [List.find?_map]
    have hcomp : (tombKey ws tbl pk ∘ fun t =>
        if tombKey ws tbl pk t &&
            (clock > t.clock || (clock == t.clock && sv > t.serverVersion)) then
          { t with deletedAt := now, clock := clock, serverVersion := sv }
        else t) = tombKey ws tbl pk := by
      funext t
      by_cases hc : (tombKey ws tbl pk t &&
          (clock > t.clock || (clock == t.clock && sv > t.serverVersion)))
      · simp only [Function.comp_apply, if_pos hc]
        rfl
      · simp only [Function.comp_apply, if_neg hc]
    rw [hcomp, h]
    have hkey : tombKey ws tbl pk t0 = true := List.find?_some h
    show some (if (tombKey ws tbl pk t0 &&
        (clock > t0.clock || (clock == t0.clock && sv > t0.serverVersion))) then
        { t0 with deletedAt := now, clock := clock, serverVersion := sv }
      else t0) = some _
    rw [if_pos (by rw [hkey, hwin]; rfl)]
  · intro t ht hk
    exact List.mem_map.mpr ⟨t, ht, by rw [if_neg (by simp [hk])]⟩

theorem upsertTombstone_preserves_unique (ts : List TombstoneRow)
    (ws tbl pk : String) (now clock sv : Nat)
    (hinv : ∀ k1 k2 k3, ts.countP (tombKey k1 k2 k3) ≤ 1) :
    ∀ k1 k2 k3,
      (upsertTombstone ts ws tbl pk now clock sv).countP (tombKey k1 k2 k3) ≤ 1 := by
  intro k1 k2 k3
  unfold upsertTombstone
  cases hf : ts.find? (tombKey ws tbl pk) with
  | none =>
    rw [List.countP_append]
    by_cases hk : tombKey k1 k2 k3 (⟨ws, tbl, pk, now, clock, sv, now⟩ : TombstoneRow)
    · have hks : ws = k1 ∧ tbl = k2 ∧ pk = k3 := by
        simp only [tombKey, Bool.and_eq_true, beq_iff_eq] at hk
        exact ⟨hk.1.1, hk.1.2, hk.2⟩
      obtain ⟨rfl, rfl, rfl⟩ := hks
      have hz : ts.countP (tombKey ws tbl pk) = 0 :=
        List.countP_eq_zero.mpr (List.find?_eq_none.mp hf)
      rw [hz]
      simp [hk]
    · have : ([(⟨ws, tbl, pk, now, clock, sv, now⟩ : TombstoneRow)]).countP
          (tombKey k1 k2 k3) = 0 := by
        simp [hk]
      rw [this]
      simpa using hinv k1 k2 k3
  | some t0 =>
    rw [List.countP_map]
    have hcomp : (tombKey k1 k2 k3 ∘ fun t =>
        if tombKey ws tbl pk t &&
            (clock > t.clock || (clock == t.clock && sv > t.serverVersion)) then
          { t with deletedAt := now, clock := clock, serverVersion := sv }
        else t) = tombKey k1 k2 k3 := by
      funext t
      by_cases hc : (tombKey ws tbl pk t &&
          (clock > t.clock || (clock == t.clock && sv > t.serverVersion)))
      · simp only [Function.comp_apply, if_pos hc]
        rfl
      · simp only [Function.comp_apply, if_neg hc]
    rw [hcomp]
    exact hinv k1 k2 k3

theorem push_preserves_tombstone_unique (ws : String) (ops : List PendingOp)
    (now : Nat) (db : Db)
    (hinv : ∀ k1 k2 k3, db.tombstones.countP (tombKey k1 k2 k3) ≤ 1) :
    ∀ k1 k2 k3,
      (push ws ops now db).2.tombstones.countP (tombKey k1 k2 k3) ≤ 1 := by
  by_cases hemp : ops = []
  · subst hemp
    exact hinv
  · by_cases hval : ∀ op ∈ ops, op.tableName ∈ ALLOWED_SYNC_TABLES
    · obtain ⟨res, newRows, db', haux, _, _, _, _, _, _, htmb⟩ :=
        pushAux_valid ws ops now db hemp hval
      rw [push_of_pushAux haux]
      exact htmb (fun ts => ∀ k1 k2 k3, ts.countP (tombKey k1 k2 k3) ≤ 1)
        (fun ts w t k n c s hp => upsertTombstone_preserves_unique ts w t k n c s hp)
        hinv
    · push_neg at hval
      rw [push_of_pushAux (pushAux_invalid ws ops now db hval)]
      exact hinv

/-- Claim C4: every committed delete op upserts the tombstone for its
(workspace, table, pk) key whether or not the materialized row changed: with
no prior tombstone a fresh one is inserted carrying the op's clock and its
allocated server_version; a prior tombstone is overwritten exactly when the
op wins the (clock, server_version) lexicographic comparison and kept intact
otherwise; and any push preserves the at-most-one-tombstone-per-key
invariant. -/
theorem claim_C4_tombstone_upsert (ws : String) (op : PendingOp) (now : Nat)
    (db : Db) (mt : String)
    (hmtv : matTableFor op.tableName = some mt)
    (hfo : findOp? db.changeLog op.stamp.opId = none)
    (hdel : op.operation = .del) :
    ((push ws [op] now db).2.tombstones
      = upsertTombstone db.tombstones ws op.tableName op.pk now op.stamp.clock
          ((db.counters.lookup ws).getD 0 + 1)) ∧
    (db.tombstones.find? (tombKey ws op.tableName op.pk) = none →
      (push ws [op] now db).2.tombstones = db.tombstones ++
        [⟨ws, op.tableName, op.pk, now, op.stamp.clock,
          (db.counters.lookup ws).getD 0 + 1, now⟩]) ∧
    (∀ t0, db.tombstones.find? (tombKey ws op.tableName op.pk) = some t0 →
      db.tombstones.countP (tombKey ws op.tableName op.pk) ≤ 1 →
      (op.stamp.clock > t0.clock || (op.stamp.clock == t0.clock &&
        (db.counters.lookup ws).getD 0 + 1 > t0.serverVersion)) = false →
      (push ws [op] now db).2.tombstones = db.tombstones) ∧
    (∀ t0, db.tombstones.find? (tombKey ws op.tableName op.pk) = some t0 →
      (op.stamp.clock > t0.clock || (op.stamp.clock == t0.clock &&
        (db.counters.lookup ws).getD 0 + 1 > t0.serverVersion)) = true →
      (push ws [op] now db).2.tombstones.find? (tombKey ws op.tableName op.pk)
        = some ⟨t0.workspaceId, t0.tableName, t0.pk, now, op.stamp.clock,
            (db.counters.lookup ws).getD 0 + 1, t0.createdAt⟩) ∧
    ((∀ k1 k2 k3, db.tombstones.countP (tombKey k1 k2 k3) ≤ 1) →
      ∀ k1 k2 k3,
        (push ws [op] now db).2.tombstones.countP (tombKey k1 k2 k3) ≤ 1) := by
  have hp := push_of_pushAux (pushAux_single_new ws op now db mt hmtv hfo)
  have hts : (push ws [op] now db).2.tombstones
      = upsertTombstone db.tombstones ws op.tableName op.pk now op.stamp.clock
          ((db.counters.lookup ws).getD 0 + 1) := by
    rw [hp]
    simp only [applyOpState, hdel]
  refine ⟨hts, ?_, ?_, ?_,
    push_preserves_tombstone_unique ws [op] now db⟩
  · intro hnone
    rw [hts]
    exact upsertTombstone_of_none _ _ _ hnone
  · intro t0 hsome hone hlose
    rw [hts]
    exact upsertTombstone_of_some_lose _ _ _ hsome hone hlose
  · intro t0 hsome hwin
    rw [hts]
    exact (upsertTombstone_of_some_win _ _ _ hsome hwin).1

/-- A delete op on threads t1 at clock 4, for the C4 witness. -/
def exOpDel4 : PendingOp :=
  ⟨"threads", .del, "t1", none, ⟨"devB", "op-d4", "hB", 4⟩⟩

theorem claim_C4_witness :
    (push "w1" [exOpDel4] 9 exDb0).2.tombstones
      = exDb0.tombstones ++
        [⟨"w1", "threads", "t1", 9, 4, 1, 9⟩] := by
  have h := claim_C4_tombstone_upsert "w1" exOpDel4 9 exDb0 "s_threads"
    (by decide) rfl rfl
  exact h.2.1 rfl

/-! ## Claim C2 -/

theorem push_preserves_opId_unique (ws : String) (ops : List PendingOp)
    (now : Nat) (db : Db)
    (huniq : ∀ id, db.changeLog.countP (fun r => r.opId == id) ≤ 1) :
    ∀ id, (push ws ops now db).2.changeLog.countP (fun r => r.opId == id) ≤ 1 := by
  by_cases hemp : ops = []
  · subst hemp
    exact huniq
  · by_cases hval : ∀ op ∈ ops, op.tableName ∈ ALLOWED_SYNC_TABLES
    · obtain ⟨res, newRows, db', haux, hlog, _, _, hids, _, _, _⟩ :=
        pushAux_valid ws ops now db hemp hval
      rw [push_of_pushAux haux, hlog]
      intro id
      rw [List.countP_append]
      by_cases hin : id ∈ newRows.map (fun r => r.opId)
      · have hnew : findOp? db.changeLog id = none := by
          rw [hids] at hin
          exact uniqueNewOpIds_new db.changeLog ops [] id hin
        have hold : db.changeLog.countP (fun r => r.opId == id) = 0 := by
          apply List.countP_eq_zero.mpr
          intro r hr
          have hfnone := Option.map_eq_none'.mp hnew
          simpa using List.find?_eq_none.mp hfnone r hr
        have hnodup : (newRows.map (fun r => r.opId)).Nodup := by
          rw [hids]
          exact uniqueNewOpIds_nodup db.changeLog ops []
        have hcnt := List.nodup_iff_count_le_one.mp hnodup id
        have hmapc : (newRows.map (fun r => r.opId)).count id
            = newRows.countP (fun r => r.opId == id) := by
          rw [List.count_eq_countP, List.countP_map]
          rfl
        rw [hmapc] at hcnt
        rw [hold]
        omega
      · have hz : newRows.countP (fun r => r.opId == id) = 0 := by
          apply List.countP_eq_zero.mpr
          intro r hr hbeq
          exact hin (List.mem_map.mpr ⟨r, hr, by simpa using hbeq⟩)
        rw [hz]
        simpa using huniq id
    · push_neg at hval
      rw [push_of_pushAux (pushAux_invalid ws ops now db hval)]
      exact huniq

theorem findOp_append_of_none {log : List ChangeLogRow} {extra : List ChangeLogRow}
    {id : String} (h : findOp? log id = none) :
    findOp? (log ++ extra) id = findOp? extra id := by
  unfold findOp? at h ⊢
  rw [List.find?_append, Option.map_eq_none'.mp h]
  rfl

theorem push_push_idempotent (ws : String) (op : PendingOp) (now now2 : Nat)
    (db : Db) :
    (push ws [op] now2 (push ws [op] now db).2).2 = (push ws [op] now db).2 := by
  by_cases hallow : op.tableName ∈ ALLOWED_SYNC_TABLES
  · cases hfo : findOp? db.changeLog op.stamp.opId with
    | some sv =>
      rw [push_of_pushAux (pushAux_replay ws [op] now db (by simp)
        (fun o ho => by rw [List.mem_singleton.mp ho]; exact hallow)
        (fun o ho => by rw [List.mem_singleton.mp ho]; simp [hfo]))]
      rw [push_of_pushAux (pushAux_replay ws [op] now2 _ (by simp)
        (fun o ho => by rw [List.mem_singleton.mp ho]; exact hallow)
        (fun o ho => by rw [List.mem_singleton.mp ho]; simp [hfo]))]
      show ({ db with
          counters := writeCounter (writeCounter db.counters ws 0) ws 0 } : Db) = _
      rw [writeCounter_writeCounter_zero]
    | none =>
      obtain ⟨mt, hmtv⟩ := Option.isSome_iff_exists.mp
        (matTableFor_isSome_of_mem hallow)
      have h1 := push_of_pushAux (pushAux_single_new ws op now db mt hmtv hfo)
      rw [h1]
      have hlog1 : (applyOpState ws now ((db.counters.lookup ws).getD 0 + 1) mt op
          { db with counters := writeCounter db.counters ws 1 }).changeLog
          = db.changeLog ++ [logRowOf ws now ((db.counters.lookup ws).getD 0 + 1) op] := by
        rw [applyOpState_changeLog]
      have hfo2 : findOp? (applyOpState ws now ((db.counters.lookup ws).getD 0 + 1)
          mt op { db with counters := writeCounter db.counters ws 1 }).changeLog
          op.stamp.opId = some ((db.counters.lookup ws).getD 0 + 1) := by
        rw [hlog1, findOp_append_of_none hfo]
        unfold findOp? logRowOf
        simp
      rw [push_of_pushAux (pushAux_replay ws [op] now2 _ (by simp)
        (fun o ho => by rw [List.mem_singleton.mp ho]; exact hallow)
        (fun o ho => by rw [List.mem_singleton.mp ho]; simp [hfo2]))]
      have hcnt : (applyOpState ws now ((db.counters.lookup ws).getD 0 + 1) mt op
          { db with counters := writeCounter db.counters ws 1 }).counters
          = writeCounter db.counters ws 1 := by
        rw [applyOpState_counters]
      have hwc : writeCounter (applyOpState ws now
          ((db.counters.lookup ws).getD 0 + 1) mt op
          { db with counters := writeCounter db.counters ws 1 }).counters ws 0
          = (applyOpState ws now ((db.counters.lookup ws).getD 0 + 1) mt op
            { db with counters := writeCounter db.counters ws 1 }).counters := by
        rw [hcnt, writeCounter_writeCounter_zero]
      rw [hwc]
  · have hbad : ∃ o ∈ [op], o.tableName ∉ ALLOWED_SYNC_TABLES :=
      ⟨op, by simp, hallow⟩
    rw [push_of_pushAux (pushAux_invalid ws [op] now db hbad)]
    rw [push_of_pushAux (pushAux_invalid ws [op] now2 db hbad)]

/-- Claim C2: op-level idempotency. A push never creates a second change-log
row for an op_id that already has one (at-most-one-row-per-op_id is
preserved by every push); pushing the same single-op batch twice leaves the
same state as pushing it once; and a batch repeating one op_id twice succeeds
with both results sharing one allocated server_version while ending in
exactly the single-push state. -/
theorem claim_C2_op_idempotency (ws : String) (ops : List PendingOp)
    (op : PendingOp) (now now2 : Nat) (db : Db)
    (hallow : op.tableName ∈ ALLOWED_SYNC_TABLES) :
    ((∀ id, db.changeLog.countP (fun r => r.opId == id) ≤ 1) →
      ∀ id, (push ws ops now db).2.changeLog.countP (fun r => r.opId == id) ≤ 1) ∧
    ((push ws [op] now2 (push ws [op] now db).2).2 = (push ws [op] now db).2) ∧
    (∃ sv, (push ws [op, op] now db).1.results
        = [okResult op.stamp.opId sv, okResult op.stamp.opId sv] ∧
      (push ws [op, op] now db).2 = (push ws [op] now db).2) := by
  refine ⟨fun h => push_preserves_opId_unique ws ops now db h,
    push_push_idempotent ws op now now2 db, ?_⟩
  cases hfo : findOp? db.changeLog op.stamp.opId with
  | some sv =>
    rw [push_of_pushAux (pushAux_replay ws [op, op] now db (by simp)
      (fun o ho => by
        rcases List.mem_cons.mp ho with rfl | ho2
        · exact hallow
        · rw [List.mem_singleton.mp ho2]; exact hallow)
      (fun o ho => by
        rcases List.mem_cons.mp ho with rfl | ho2
        · simp [hfo]
        · rw [List.mem_singleton.mp ho2]; simp [hfo]))]
    rw [push_of_pushAux (pushAux_replay ws [op] now db (by simp)
      (fun o ho => by rw [List.mem_singleton.mp ho]; exact hallow)
      (fun o ho => by rw [List.mem_singleton.mp ho]; simp [hfo]))]
    exact ⟨sv, by simp [hfo], rfl⟩
  | none =>
    obtain ⟨mt, hmtv⟩ := Option.isSome_iff_exists.mp
      (matTableFor_isSome_of_mem hallow)
    rw [push_of_pushAux (pushAux_pair_dup ws op now db mt hmtv hfo),
      push_of_pushAux (pushAux_single_new ws op now db mt hmtv hfo)]
    exact ⟨(db.counters.lookup ws).getD 0 + 1, rfl, rfl⟩

theorem claim_C2_witness :
    (exOp1.tableName ∈ ALLOWED_SYNC_TABLES) ∧
    (((∀ id, exDb0.changeLog.countP (fun r => r.opId == id) ≤ 1) →
      ∀ id, (push "w1" [exOp1] 3 exDb0).2.changeLog.countP
        (fun r => r.opId == id) ≤ 1) ∧
    ((push "w1" [exOp1] 5 (push "w1" [exOp1] 3 exDb0).2).2
      = (push "w1" [exOp1] 3 exDb0).2) ∧
    (∃ sv, (push "w1" [exOp1, exOp1] 3 exDb0).1.results
        = [okResult exOp1.stamp.opId sv, okResult exOp1.stamp.opId sv] ∧
      (push "w1" [exOp1, exOp1] 3 exDb0).2 = (push "w1" [exOp1] 3 exDb0).2)) :=
  ⟨by decide, claim_C2_op_idempotency "w1" [exOp1] exOp1 3 5 exDb0 (by decide)⟩

/-! ## Claim C5 -/

/-- Claim C5: pull caps the requested limit at 1000, returns only change-log
rows of the workspace with server_version above the cursor that pass the
table filter, in strictly ascending server_version order (given the schema's
per-workspace uniqueness of server_version), computes has_more by fetching
one row beyond the limit, sets next_cursor to the last returned version or
the input cursor when nothing is returned, and (when has_more is false)
returns every qualifying row. Pull reads only: it returns a response and no
state. -/
theorem claim_C5_pull_semantics (db : Db) (ws : String) (c L : Nat)
    (tables : Option (List String))
    (hNodup : ((pullCandidates db ws c tables).map
      (fun r => r.serverVersion)).Nodup) :
    (pull db ws c L tables).changes.length ≤ min L 1000 ∧
    (∀ ch ∈ (pull db ws c L tables).changes, ∃ row ∈ db.changeLog,
      pullKeeps ws c tables row = true ∧ ch = toSyncChange row) ∧
    (pull db ws c L tables).changes.Pairwise
      (fun a b => a.serverVersion < b.serverVersion) ∧
    (pull db ws c L tables).hasMore
      = decide (min L 1000 < (pullCandidates db ws c tables).length) ∧
    (pull db ws c L tables).nextCursor
      = (match (pull db ws c L tables).changes.getLast? with
         | some ch => ch.serverVersion
         | none => c) ∧
    ((pull db ws c L tables).hasMore = false →
      ∀ row ∈ pullCandidates db ws c tables,
        toSyncChange row ∈ (pull db ws c L tables).changes) := by
  have hperm := sortByVersion_perm (pullCandidates db ws c tables)
  have hlen : (sortByVersion (pullCandidates db ws c tables)).length
      = (pullCandidates db ws c tables).length := hperm.length_eq
  have hresdef : (pull db ws c L tables).changes
      = (if decide (min L 1000 <
            ((sortByVersion (pullCandidates db ws c tables)).take
              (min L 1000 + 1)).length) = true then
          ((sortByVersion (pullCandidates db ws c tables)).take
            (min L 1000 + 1)).take (min L 1000)
        else
          (sortByVersion (pullCandidates db ws c tables)).take
            (min L 1000 + 1)).map toSyncChange := rfl
  have hrows_len : ((sortByVersion (pullCandidates db ws c tables)).take
      (min L 1000 + 1)).length
      = min (min L 1000 + 1) (pullCandidates db ws c tables).length := by
    rw [List.length_take, hlen]
  have hresult_sub : (if decide (min L 1000 <
        ((sortByVersion (pullCandidates db ws c tables)).take
          (min L 1000 + 1)).length) = true then
        ((sortByVersion (pullCandidates db ws c tables)).take
          (min L 1000 + 1)).take (min L 1000)
      else
        (sortByVersion (pullCandidates db ws c tables)).take
          (min L 1000 + 1)).Sublist
        (sortByVersion (pullCandidates db ws c tables)) := by
    by_cases h : decide (min L 1000 <
        ((sortByVersion (pullCandidates db ws c tables)).take
          (min L 1000 + 1)).length) = true
    · rw [if_pos h]
      exact (List.take_sublist _ _).trans (List.take_sublist _ _)
    · rw [if_neg h]
      exact List.take_sublist _ _
  refine ⟨?_, ?_, ?_, ?_, ?_, ?_⟩
  · rw [hresdef, List.length_map]
    by_cases h : decide (min L 1000 <
        ((sortByVersion (pullCandidates db ws c tables)).take
          (min L 1000 + 1)).length) = true
    · rw [if_pos h, List.length_take]
      omega
    · rw [if_neg h]
      have h2 : ¬(min L 1000 <
          ((sortByVersion (pullCandidates db ws c tables)).take
            (min L 1000 + 1)).length) := by simpa using h
      omega
  · intro ch hch
    rw [hresdef] at hch
    rcases List.mem_map.mp hch with ⟨row, hrow, rfl⟩
    have hrow2 : row ∈ pullCandidates db ws c tables :=
      hperm.subset (hresult_sub.subset hrow)
    rcases List.mem_filter.mp hrow2 with ⟨hmem, hkeep⟩
    exact ⟨row, hmem, hkeep, rfl⟩
  · rw [hresdef]
    apply List.pairwise_map.mpr
    have hsorted := sortByVersion_sorted (pullCandidates db ws c tables)
    have hnd : ((sortByVersion (pullCandidates db ws c tables)).map
        (fun r => r.serverVersion)).Nodup :=
      ((hperm.map (fun r => r.serverVersion)).nodup_iff).mpr hNodup
    have hlt := pairwise_vlt_of_nodup hsorted hnd
    exact (hlt.sublist hresult_sub).imp (fun h => h)
  · show decide _ = _
    rw [hrows_len]
    rw [decide_eq_decide]
    omega
  · rw [hresdef]
    show (match ((if _ then _ else _) : List ChangeLogRow).getLast? with
      | some r => r.serverVersion
      | none => c)
      = _
    rw [List.getLast?_map]
    cases hl : ((if decide (min L 1000 <
        ((sortByVersion (pullCandidates db ws c tables)).take
          (min L 1000 + 1)).length) = true then
        ((sortByVersion (pullCandidates db ws c tables)).take
          (min L 1000 + 1)).take (min L 1000)
      else
        (sortByVersion (pullCandidates db ws c tables)).take
          (min L 1000 + 1)) : List ChangeLogRow).getLast? with
    | none => rfl
    | some r => rfl
  · intro hnm row hrow
    have hhm : decide (min L 1000 <
        ((sortByVersion (pullCandidates db ws c tables)).take
          (min L 1000 + 1)).length) = false := hnm
    have hlelen : (pullCandidates db ws c tables).length ≤ min L 1000 := by
      have := of_decide_eq_false hhm
      rw [hrows_len] at this
      omega
    have htake : (sortByVersion (pullCandidates db ws c tables)).take
        (min L 1000 + 1) = sortByVersion (pullCandidates db ws c tables) :=
      List.take_of_length_le (by omega)
    rw [hresdef, hhm]
    simp only [Bool.false_eq_true, if_false, htake]
    exact List.mem_map.mpr ⟨row, hperm.mem_iff.mpr hrow, rfl⟩

/-- A change log with three committed thread rows in workspace w1. -/
def exDbPull : Db :=
  ⟨[⟨"w1", 1, "threads", "a", .put, none, 1, "h1", "d", "q1", 0⟩,
    ⟨"w1", 2, "threads", "b", .put, none, 1, "h2", "d", "q2", 0⟩,
    ⟨"w1", 3, "threads", "c", .put, none, 1, "h3", "d", "q3", 0⟩],
   [("w1", 3)], [], [], []⟩

theorem claim_C5_witness :
    ((pullCandidates exDbPull "w1" 0 none).map
      (fun r => r.serverVersion)).Nodup ∧
    ((pull exDbPull "w1" 0 2 none).changes.length ≤ min 2 1000 ∧
    (∀ ch ∈ (pull exDbPull "w1" 0 2 none).changes, ∃ row ∈ exDbPull.changeLog,
      pullKeeps "w1" 0 none row = true ∧ ch = toSyncChange row) ∧
    (pull exDbPull "w1" 0 2 none).changes.Pairwise
      (fun a b => a.serverVersion < b.serverVersion) ∧
    (pull exDbPull "w1" 0 2 none).hasMore
      = decide (min 2 1000 < (pullCandidates exDbPull "w1" 0 none).length) ∧
    (pull exDbPull "w1" 0 2 none).nextCursor
      = (match (pull exDbPull "w1" 0 2 none).changes.getLast? with
         | some ch => ch.serverVersion
         | none => 0) ∧
    ((pull exDbPull "w1" 0 2 none).hasMore = false →
      ∀ row ∈ pullCandidates exDbPull "w1" 0 none,
        toSyncChange row ∈ (pull exDbPull "w1" 0 2 none).changes)) :=
  ⟨by decide, claim_C5_pull_semantics exDbPull "w1" 0 2 none (by decide)⟩

/-! ## Claim C6 -/

theorem foldl_min_le (vs : List Nat) :
    ∀ (v : Nat), vs.foldl min v ≤ v ∧ ∀ x ∈ vs, vs.foldl min v ≤ x := by
  induction vs with
  | nil =>
    intro v
    exact ⟨le_refl v, by intro x hx; cases hx⟩
  | cons w rest ih =>
    intro v
    obtain ⟨h1, h2⟩ := ih (min v w)
    refine ⟨le_trans h1 (min_le_left v w), ?_⟩
    intro x hx
    rcases List.mem_cons.mp hx with rfl | hx2
    · exact le_trans h1 (min_le_right v x)
    · exact h2 x hx2

theorem foldl_min_mem (vs : List Nat) :
    ∀ (v : Nat), vs.foldl min v = v ∨ vs.foldl min v ∈ vs := by
  induction vs with
  | nil => intro v; exact Or.inl rfl
  | cons w rest ih =>
    intro v
    rcases ih (min v w) with h | h
    · rcases Nat.le_total v w with hvw | hwv
      · left
        rw [List.foldl_cons, h]
        exact min_eq_left hvw
      · right
        rw [List.foldl_cons, h, min_eq_right hwv]
        exact List.mem_cons_self w rest
    · right
      exact List.mem_cons_of_mem w h

/-- Claim C6: gcChangeLog deletes exactly the workspace's change-log rows
with server_version below the minimum device cursor and created_at strictly
before now minus the retention window, batching deletions in groups of 1000
until a short batch, and touches nothing else; min_cursor is the minimum
last_seen_version over the workspace's cursors, 0 when there are none. -/
theorem claim_C6_gc_change_log (db : Db) (ws : String) (R now : Nat) :
    (gcChangeLog db ws R now).changeLog
      = db.changeLog.filter (fun r =>
          !(gcQualifies ws (minCursorVersion db.cursors ws)
            ((now : Int) - (R : Int)) r)) ∧
    (∀ r, r ∈ (gcChangeLog db ws R now).changeLog ↔
      r ∈ db.changeLog ∧
      ¬(r.workspaceId = ws ∧
        r.serverVersion < minCursorVersion db.cursors ws ∧
        (r.createdAt : Int) < (now : Int) - (R : Int))) ∧
    (gcChangeLog db ws R now).counters = db.counters ∧
    (gcChangeLog db ws R now).mat = db.mat ∧
    (gcChangeLog db ws R now).tombstones = db.tombstones ∧
    (gcChangeLog db ws R now).cursors = db.cursors ∧
    (db.cursors.filter (fun cr => cr.workspaceId == ws) = [] →
      minCursorVersion db.cursors ws = 0) ∧
    (∀ cr ∈ db.cursors.filter (fun cr => cr.workspaceId == ws),
      minCursorVersion db.cursors ws ≤ cr.lastSeenVersion) ∧
    (db.cursors.filter (fun cr => cr.workspaceId == ws) ≠ [] →
      ∃ cr ∈ db.cursors.filter (fun cr => cr.workspaceId == ws),
        minCursorVersion db.cursors ws = cr.lastSeenVersion) := by
  have hfe := gcChangeLog_filter db ws R now
  refine ⟨hfe, ?_, rfl, rfl, rfl, rfl, ?_, ?_, ?_⟩
  · intro r
    rw [hfe, List.mem_filter]
    constructor
    · rintro ⟨hmem, hq⟩
      refine ⟨hmem, ?_⟩
      intro ⟨h1, h2, h3⟩
      have : gcQualifies ws (minCursorVersion db.cursors ws)
          ((now : Int) - (R : Int)) r = true := by
        simp [gcQualifies, h1, h2, h3]
      rw [this] at hq
      cases hq
    · rintro ⟨hmem, hq⟩
      refine ⟨hmem, ?_⟩
      have : gcQualifies ws (minCursorVersion db.cursors ws)
          ((now : Int) - (R : Int)) r = false := by
        by_cases hb : gcQualifies ws (minCursorVersion db.cursors ws)
            ((now : Int) - (R : Int)) r = true
        · exfalso
          apply hq
          simp only [gcQualifies, Bool.and_eq_true, beq_iff_eq,
            decide_eq_true_eq] at hb
          exact ⟨hb.1.1, hb.1.2, hb.2⟩
        · simpa using hb
      rw [this]
      rfl
  · intro h
    unfold minCursorVersion
    rw [h]
    rfl
  · intro cr hcr
    unfold minCursorVersion
    cases hmap : (db.cursors.filter
        (fun cr => cr.workspaceId == ws)).map (fun cr => cr.lastSeenVersion) with
    | nil =>
      exfalso
      have : cr.lastSeenVersion ∈ (db.cursors.filter
          (fun cr => cr.workspaceId == ws)).map (fun cr => cr.lastSeenVersion) :=
        List.mem_map.mpr ⟨cr, hcr, rfl⟩
      rw [hmap] at this
      cases this
    | cons v vs =>
      have hmem : cr.lastSeenVersion ∈ v :: vs := by
        rw [← hmap]
        exact List.mem_map.mpr ⟨cr, hcr, rfl⟩
      rcases List.mem_cons.mp hmem with he | hmem2
      · rw [← he]
        exact (foldl_min_le vs _).1
      · exact (foldl_min_le vs v).2 _ hmem2
  · intro hne
    unfold minCursorVersion
    cases hmap : (db.cursors.filter
        (fun cr => cr.workspaceId == ws)).map (fun cr => cr.lastSeenVersion) with
    | nil =>
      exact absurd (List.map_eq_nil_iff.mp hmap) hne
    | cons v vs =>
      have hmm : vs.foldl min v ∈ v :: vs := by
        rcases foldl_min_mem vs v with h | h
        · rw [h]; exact List.mem_cons_self v vs
        · exact List.mem_cons_of_mem v h
      rw [← hmap] at hmm
      rcases List.mem_map.mp hmm with ⟨cr, hcr, hval⟩
      exact ⟨cr, hcr, hval.symm⟩

/-- A database with five committed rows, device cursors at 3 and 5, and
backdated created_at stamps (the spec's GC safety scenario). -/
def exDbGc : Db :=
  ⟨[⟨"w1", 1, "threads", "a", .put, none, 1, "h", "d", "g1", 0⟩,
    ⟨"w1", 2, "threads", "b", .put, none, 1, "h", "d", "g2", 0⟩,
    ⟨"w1", 3, "threads", "c", .put, none, 1, "h", "d", "g3", 0⟩,
    ⟨"w1", 4, "threads", "e", .put, none, 1, "h", "d", "g4", 0⟩,
    ⟨"w1", 5, "threads", "f", .put, none, 1, "h", "d", "g5", 0⟩],
   [("w1", 5)], [], [],
   [⟨"w1", "devA", 3, 0⟩, ⟨"w1", "devB", 5, 0⟩]⟩

theorem claim_C6_witness :
    (gcChangeLog exDbGc "w1" 1 100).changeLog
      = exDbGc.changeLog.filter (fun r =>
          !(gcQualifies "w1" (minCursorVersion exDbGc.cursors "w1")
            ((100 : Int) - (1 : Int)) r)) ∧
    ((gcChangeLog exDbGc "w1" 1 100).changeLog.map
      (fun r => r.serverVersion) = [3, 4, 5]) := by
  have h := claim_C6_gc_change_log exDbGc "w1" 1 100
  exact ⟨h.1, by rw [h.1]; decide⟩

/-! ## Claim C9 (corrected) -/

theorem head?_mem {α : Type} {l : List α} {x : α} (h : l.head? = some x) :
    x ∈ l := by
  cases l with
  | nil => cases h
  | cons a rest =>
    injection h with h
    rw [← h]
    exact List.mem_cons_self a rest

/-- The C9 counterexample state: user u's active pointer names the
soft-deleted workspace D while u also holds a live membership in A. -/
def exAuthDb : AuthDb :=
  ⟨[⟨"u", none, none, some "D", 0⟩],
   [⟨"A", "Alpha", none, "u", 0, false, none⟩,
    ⟨"D", "Dead", none, "u", 0, true, some 5⟩],
   [⟨"m1", "A", "u", "owner", 0⟩, ⟨"m2", "D", "u", "owner", 0⟩]⟩

/-- Claim C9 counterexample: the user's stale active pointer names the
soft-deleted workspace D, the call resolves the default workspace to the live
workspace A, yet the pointer is left pointing at D — the claimed repair of a
stale pointer to the returned workspace never happens. -/
theorem claim_C9_counterexample :
    (getOrCreateDefaultWorkspace exAuthDb "u" "fw" "fm" 10).1 = ("A", "Alpha") ∧
    (getOrCreateDefaultWorkspace exAuthDb "u" "fw" "fm" 10).2.users
      = [⟨"u", none, none, some "D", 0⟩] ∧
    (∀ u ∈ (getOrCreateDefaultWorkspace exAuthDb "u" "fw" "fm" 10).2.users,
      u.activeWorkspaceId
        ≠ some (getOrCreateDefaultWorkspace exAuthDb "u" "fw" "fm" 10).1.1) := by
  refine ⟨rfl, rfl, ?_⟩
  decide

/-- Claim C9 as amended: getOrCreateDefaultWorkspace never consults the
active_workspace_id pointer. It returns the first membership (in member-table
order) whose workspace row exists and is not soft-deleted, setting the active
pointer to that workspace only for the user when the pointer is currently
null — a non-null stale pointer is left unrepaired; when no live membership
exists it creates a workspace named "My Workspace" with the user as sole
owner member and sets it active. -/
theorem claim_C9_default_workspace (db : AuthDb) (userId fw fm : String)
    (now : Nat) :
    (∀ wid wname, findDefaultMembership db userId = some (wid, wname) →
      (getOrCreateDefaultWorkspace db userId fw fm now).1 = (wid, wname) ∧
      (getOrCreateDefaultWorkspace db userId fw fm now).2.workspaces
        = db.workspaces ∧
      (getOrCreateDefaultWorkspace db userId fw fm now).2.members
        = db.members ∧
      (getOrCreateDefaultWorkspace db userId fw fm now).2.users
        = db.users.map (fun u =>
            if u.id == userId && u.activeWorkspaceId.isNone then
              { u with activeWorkspaceId := some wid }
            else u)) ∧
    (∀ wid wname, findDefaultMembership db userId = some (wid, wname) →
      ∃ m ∈ db.members, m.userId = userId ∧
        ∃ w, db.workspaces.find? (fun w2 => w2.id == m.workspaceId) = some w ∧
          w.deleted = false ∧ wid = w.id ∧ wname = w.name) ∧
    (findDefaultMembership db userId = none →
      (getOrCreateDefaultWorkspace db userId fw fm now).1
        = (fw, "My Workspace") ∧
      (getOrCreateDefaultWorkspace db userId fw fm now).2.workspaces
        = db.workspaces
          ++ [⟨fw, "My Workspace", none, userId, now, false, none⟩] ∧
      (getOrCreateDefaultWorkspace db userId fw fm now).2.members
        = db.members ++ [⟨fm, fw, userId, "owner", now⟩] ∧
      (getOrCreateDefaultWorkspace db userId fw fm now).2.users
        = db.users.map (fun u =>
            if u.id == userId then { u with activeWorkspaceId := some fw }
            else u)) := by
  refine ⟨?_, ?_, ?_⟩
  · intro wid wname h
    unfold getOrCreateDefaultWorkspace
    rw [h]
    exact ⟨rfl, rfl, rfl, rfl⟩
  · intro wid wname h
    have hmem : (wid, wname) ∈ db.members.filterMap (fun m =>
        if m.userId == userId then
          match db.workspaces.find? (fun w => w.id == m.workspaceId) with
          | some w => if w.deleted then none else some (w.id, w.name)
          | none => none
        else none) := head?_mem h
    rcases List.mem_filterMap.mp hmem with ⟨m, hm, hf⟩
    by_cases hu : m.userId == userId
    · rw [if_pos hu] at hf
      cases hw : db.workspaces.find? (fun w2 => w2.id == m.workspaceId) with
      | none =>
        rw [hw] at hf
        cases hf
      | some w =>
        rw [hw] at hf
        have hf' : (if w.deleted then none
            else some (w.id, w.name)) = some (wid, wname) := hf
        by_cases hd : w.deleted
        · rw [if_pos hd] at hf'
          cases hf'
        · rw [if_neg hd] at hf'
          injection hf' with hf
          refine ⟨m, hm, by simpa using hu, w, hw, by simpa using hd, ?_, ?_⟩
          · exact (congrArg Prod.fst hf).symm
          · exact (congrArg Prod.snd hf).symm
    · rw [if_neg hu] at hf
      cases hf
  · intro h
    unfold getOrCreateDefaultWorkspace
    rw [h]
    exact ⟨rfl, rfl, rfl, rfl⟩

/-- A user with a null active pointer and one live membership. -/
def exAuthDbNull : AuthDb :=
  ⟨[⟨"u2", none, none, none, 0⟩],
   [⟨"A", "Alpha", none, "u2", 0, false, none⟩],
   [⟨"m1", "A", "u2", "editor", 0⟩]⟩

theorem claim_C9_witness :
    findDefaultMembership exAuthDbNull "u2" = some ("A", "Alpha") ∧
    ((getOrCreateDefaultWorkspace exAuthDbNull "u2" "fw" "fm" 10).1
      = ("A", "Alpha") ∧
    (getOrCreateDefaultWorkspace exAuthDbNull "u2" "fw" "fm" 10).2.workspaces
      = exAuthDbNull.workspaces ∧
    (getOrCreateDefaultWorkspace exAuthDbNull "u2" "fw" "fm" 10).2.members
      = exAuthDbNull.members ∧
    (getOrCreateDefaultWorkspace exAuthDbNull "u2" "fw" "fm" 10).2.users
      = exAuthDbNull.users.map (fun u =>
          if u.id == "u2" && u.activeWorkspaceId.isNone then
            { u with activeWorkspaceId := some "A" }
          else u)) := by
  have h := claim_C9_default_workspace exAuthDbNull "u2" "fw" "fm" 10
  exact ⟨by decide, h.1 "A" "Alpha" (by decide)⟩

end Or3Sqlite
